import Mathlib

/-!
Verification of the soap-service schema-to-protocol compiler.

The development shallowly embeds the Rust sources of the repository:
pure string-building functions become Lean functions over `String`
(internally over `List Char`, with byte positions modelled as character
positions, which coincide for the ASCII data handled here), fallible
functions return `Except String`, and the external quick-xml reader and
writer used by the envelope codec are modelled at the XML-event level.
-/

namespace SoapService

/-! ## Generic character-list utilities -/

/-- Characters treated as whitespace by `str::trim` and friends
(ASCII subset, which covers all inputs considered here). -/
def isWs (c : Char) : Bool :=
  c = ' ' || c = '\t' || c = '\n' || c = '\r'

def trimLeftList (cs : List Char) : List Char :=
  cs.dropWhile isWs

def trimRightList (cs : List Char) : List Char :=
  (cs.reverse.dropWhile isWs).reverse

def trimList (cs : List Char) : List Char :=
  trimRightList (trimLeftList cs)

/-- Index of the first occurrence of `pat` in `h`, as `str::find`. -/
def findSub (h pat : List Char) : Option Nat :=
  if pat.isPrefixOf h then some 0
  else
    match h with
    | [] => none
    | _ :: t => (findSub t pat).map (· + 1)

def containsSub (h pat : List Char) : Bool :=
  (findSub h pat).isSome

/-- Leftmost, non-overlapping replacement of every occurrence of `pat`
by `rep`, as `str::replace`.  Fuel-based so the kernel can evaluate it;
`replaceList` instantiates the fuel with the input length. -/
def replaceListAux (fuel : Nat) (cs pat rep : List Char) : List Char :=
  match fuel with
  | 0 => cs
  | fuel + 1 =>
    if pat ≠ [] ∧ pat.isPrefixOf cs then
      rep ++ replaceListAux fuel (cs.drop pat.length) pat rep
    else
      match cs with
      | [] => []
      | c :: t => c :: replaceListAux fuel t pat rep

def replaceList (cs pat rep : List Char) : List Char :=
  replaceListAux (cs.length + 1) cs pat rep

def strReplace (s pat rep : String) : String :=
  ⟨replaceList s.data pat.data rep.data⟩

/-- Split on a separator character, as Rust `str::split(c)`:
the result is never empty, and empty segments are kept. -/
def splitOnChar (c : Char) : List Char → List (List Char)
  | [] => [[]]
  | x :: xs =>
    match splitOnChar c xs with
    | [] => [[x]]
    | h :: t => if x = c then [] :: h :: t else (x :: h) :: t

theorem splitOnChar_ne_nil (c : Char) (cs : List Char) : splitOnChar c cs ≠ [] := by
  cases cs with
  | nil => simp [splitOnChar]
  | cons x xs =>
    simp only [splitOnChar]
    rcases h : splitOnChar c xs with _ | ⟨h1, t1⟩
    · simp
    · by_cases hx : x = c <;> simp [hx]

/-- Rust `split(c).last().unwrap_or(d)` (the iterator is never empty). -/
def lastSegment (c : Char) (cs : List Char) : List Char :=
  (splitOnChar c cs).getLast?.getD cs

/-- Rust `split_whitespace().next().unwrap_or(d)`: the first
whitespace-separated token, or `d` when there is none. -/
def firstToken (cs : List Char) : List Char :=
  let t := (cs.dropWhile isWs).takeWhile (fun c => !isWs c)
  if t = [] then cs else t

/-! ## Operation-name derivation (src/parser/functions.rs) -/

/-- First character upper-cased, rest unchanged (Rust capitalisation of
one `_`-separated segment; `char::to_uppercase` agrees with
`Char.toUpper` on ASCII identifiers). -/
def capitalizeWord : List Char → List Char
  | [] => []
  | c :: rest => c.toUpper :: rest

/-- `generate_operation_name` from src/parser/functions.rs: split the
function name on underscores and capitalise each segment. -/
def generate_operation_name (s : String) : String :=
  ⟨List.flatten ((splitOnChar '_' s.data).map capitalizeWord)⟩

/-- The spec formulation of operation-name derivation: one pass over
the characters, capitalising exactly the character that starts a
`_`-delimited segment and dropping the separators. -/
def specCapitalizeWords : List Char → Bool → List Char
  | [], _ => []
  | c :: rest, atStart =>
    if c = '_' then specCapitalizeWords rest true
    else (if atStart then c.toUpper else c) :: specCapitalizeWords rest false

def specOperationName (s : String) : String :=
  ⟨specCapitalizeWords s.data true⟩

theorem specCapitalizeWords_eq_split (cs : List Char) :
    specCapitalizeWords cs true
      = List.flatten ((splitOnChar '_' cs).map capitalizeWord) ∧
    specCapitalizeWords cs false
      = (match splitOnChar '_' cs with
         | [] => []
         | h :: t => h ++ List.flatten (t.map capitalizeWord)) := by
  induction cs with
  | nil => simp [specCapitalizeWords, splitOnChar, capitalizeWord]
  | cons c rest ih =>
    rcases hs : splitOnChar '_' rest with _ | ⟨h1, t1⟩
    · exact absurd hs (splitOnChar_ne_nil _ _)
    · obtain ⟨ih1, ih2⟩ := ih
      rw [hs] at ih1 ih2
      by_cases hc : c = '_'
      · subst hc
        constructor
        · simp only [specCapitalizeWords, if_pos rfl, splitOnChar, hs]
          simp [ih1, capitalizeWord]
        · simp only [specCapitalizeWords, if_pos rfl, splitOnChar, hs]
          simp [ih1, capitalizeWord]
      · constructor
        · simp only [specCapitalizeWords, if_neg hc, splitOnChar, hs, if_true]
          simp [capitalizeWord, ih2]
        · simp only [specCapitalizeWords, if_neg hc, splitOnChar, hs, if_false]
          simp [capitalizeWord, ih2]

/-! ## XML entity decoding (generated code in src/lib.rs) -/

/-- `decode_xml_content` from the generated runtime in src/lib.rs:
a chain of five sequential `str::replace` calls, in source order. -/
def decode_xml_content (content : String) : String :=
  strReplace
    (strReplace
      (strReplace
        (strReplace
          (strReplace content "&lt;" "<")
          "&gt;" ">")
        "&amp;" "&")
      "&quot;" "\"")
    "&apos;" "'"

/-- Reference single-pass decoder for the five standard XML entities:
each `&...;` sequence in the input is decoded at most once, and the
characters produced by a replacement are never re-examined. -/
def singlePassDecodeAux (fuel : Nat) (cs : List Char) : List Char :=
  match fuel with
  | 0 => cs
  | fuel + 1 =>
    if ("&lt;".data).isPrefixOf cs then '<' :: singlePassDecodeAux fuel (cs.drop 4)
    else if ("&gt;".data).isPrefixOf cs then '>' :: singlePassDecodeAux fuel (cs.drop 4)
    else if ("&amp;".data).isPrefixOf cs then '&' :: singlePassDecodeAux fuel (cs.drop 5)
    else if ("&quot;".data).isPrefixOf cs then '"' :: singlePassDecodeAux fuel (cs.drop 6)
    else if ("&apos;".data).isPrefixOf cs then '\'' :: singlePassDecodeAux fuel (cs.drop 6)
    else
      match cs with
      | [] => []
      | c :: t => c :: singlePassDecodeAux fuel t

def singlePassDecode (s : String) : String :=
  ⟨singlePassDecodeAux (s.data.length + 1) s.data⟩

/-! ## Operation model (src/parser/attributes.rs, functions.rs, types.rs) -/

/-- `ServiceConfig`; the Rust field `namespace` is called `namespaceUri`
here because `namespace` is a Lean keyword. -/
structure ServiceConfig where
  namespaceUri : String
  service_name : String
  port_name : String
  bind_path : String
deriving DecidableEq

/-- The shape of a `syn::Type` as far as the analyzed code inspects it:
a path type carries its segment identifiers and, when the last segment
has angle-bracketed arguments, the first type argument
(`extract_generic_argument`); everything else is `other`. -/
inductive SynType where
  | path0 (segments : List String)
  | path1 (segments : List String) (arg : SynType)
  | other
deriving DecidableEq

/-- `FieldType` from src/parser/types.rs. -/
inductive FieldType where
  | string
  | i32
  | i64
  | f32
  | f64
  | boolean
  | optional (t : FieldType)
  | vec (t : FieldType)
  | custom (n : String)
deriving DecidableEq

/-- `FieldInfo` from src/parser/types.rs. -/
structure FieldInfo where
  name : String
  xml_name : String
  field_type : FieldType
  optional : Bool
deriving DecidableEq

/-- `TypeInfo` from src/parser/types.rs (`namespace` field renamed). -/
structure TypeInfo where
  name : String
  fields : List FieldInfo
  nsAttr : Option String
deriving DecidableEq

/-- `SoapOperation` from src/parser/functions.rs; the handler
identifier is kept as a string. -/
structure SoapOperation where
  name : String
  function_name : String
  request_type : SynType
  response_type : SynType
deriving DecidableEq

/-- `extract_type_name` (identical helpers in src/parser/types.rs and
src/codegen/wsdl.rs): identifier of the last path segment, with
`"Unknown"` as the fallback. -/
def extract_type_name : SynType → String
  | .path0 segs => (segs.getLast?).getD "Unknown"
  | .path1 segs _ => (segs.getLast?).getD "Unknown"
  | .other => "Unknown"

/-- The primitive-name table at the end of `analyze_field_type`. -/
def primFieldType (n : String) : FieldType :=
  if n = "String" ∨ n = "str" then .string
  else if n = "i32" then .i32
  else if n = "i64" then .i64
  else if n = "f32" then .f32
  else if n = "f64" then .f64
  else if n = "bool" then .boolean
  else .custom n

/-- `analyze_field_type` from src/parser/types.rs. -/
def analyze_field_type : SynType → Except String FieldType
  | .path0 segs => .ok (primFieldType ((segs.getLast?).getD "Unknown"))
  | .path1 segs arg =>
    if ((segs.getLast?).getD "Unknown") = "Option" then
      (analyze_field_type arg).map .optional
    else if ((segs.getLast?).getD "Unknown") = "Vec" then
      (analyze_field_type arg).map .vec
    else
      .ok (primFieldType ((segs.getLast?).getD "Unknown"))
  | .other => .error "Unsupported field type for SOAP operations"

/-- `is_optional_type` from src/parser/types.rs. -/
def is_optional_type : SynType → Bool
  | .path0 segs => ((segs.getLast?).getD "Unknown") = "Option"
  | .path1 segs _ => ((segs.getLast?).getD "Unknown") = "Option"
  | .other => false

/-- `analyze_type` from src/parser/types.rs: a placeholder descriptor
whose field list is always empty. -/
def analyze_type : SynType → Except String TypeInfo
  | .path0 segs => .ok ⟨(segs.getLast?).getD "Unknown", [], none⟩
  | .path1 segs _ => .ok ⟨(segs.getLast?).getD "Unknown", [], none⟩
  | .other => .error "Only named types are supported for SOAP operations"

/-- `HashMap::insert` keyed by `TypeInfo.name`, on the association-list
model of the type catalog: replace an existing entry, else append. -/
def insertType (m : List (String × TypeInfo)) (v : TypeInfo) : List (String × TypeInfo) :=
  if m.any (fun p => p.1 = v.name) then
    m.map (fun p => if p.1 = v.name then (v.name, v) else p)
  else m ++ [(v.name, v)]

def collectTypesAux (acc : List (String × TypeInfo)) :
    List SoapOperation → Except String (List (String × TypeInfo))
  | [] => .ok acc
  | op :: rest =>
    match analyze_type op.request_type with
    | .error e => .error e
    | .ok rq =>
      match analyze_type op.response_type with
      | .error e => .error e
      | .ok rs => collectTypesAux (insertType (insertType acc rq) rs) rest

/-- `collect_types_from_operations` from src/parser/types.rs.  The
`HashMap<String, TypeInfo>` is modelled as an association list whose
order stands for the iteration order of the unordered map. -/
def collect_types_from_operations (ops : List SoapOperation) :
    Except String (List (String × TypeInfo)) :=
  collectTypesAux [] ops

/-! ## WSDL generator (src/codegen/wsdl.rs) -/

/-- Modelled from the spec: the textual XSD rendering of a `FieldType`.
The `Display` implementation for `FieldType` that `generate_schema_types`
relies on is not among the sources under src/, so this table is taken
from spec section 4.2 (String to xsd:string, Int32 to xsd:int, Int64 to
xsd:long, Float32 to xsd:float, Float64 to xsd:double, Boolean to
xsd:boolean, Custom to a tns:NameType reference, Optional and List
rendering as their inner kind). -/
def FieldType.toXsd : FieldType → String
  | .string => "xsd:string"
  | .i32 => "xsd:int"
  | .i64 => "xsd:long"
  | .f32 => "xsd:float"
  | .f64 => "xsd:double"
  | .boolean => "xsd:boolean"
  | .optional t => t.toXsd
  | .vec t => t.toXsd
  | .custom n => "tns:" ++ n ++ "Type"

/-- One emitted field line of the schema (the body of the inner loop of
`generate_schema_types`), trailing newline included. -/
def fieldLine (f : FieldInfo) : String :=
  "                    <xsd:element name=\"" ++ f.xml_name ++ "\" type=\""
    ++ f.field_type.toXsd ++ "\""
    ++ (if f.optional then " minOccurs=\"0\"" else "") ++ "/>" ++ "\n"

def typeBlockHeader (tn : String) : String :=
  "            <xsd:element name=\"" ++ tn ++ "\" type=\"tns:" ++ tn ++ "Type\"/>\n"
    ++ "            <xsd:complexType name=\"" ++ tn ++ "Type\">\n"
    ++ "                <xsd:sequence>\n"

def typeBlockFooter : String :=
  "                </xsd:sequence>\n            </xsd:complexType>\n"

/-- `generate_schema_types` from src/codegen/wsdl.rs, iterating the
catalog in its (map-iteration) order. -/
def generate_schema_types (types : List (String × TypeInfo)) : String :=
  types.foldl
    (fun schema p =>
      (p.2.fields.foldl (fun s f => s ++ fieldLine f) (schema ++ typeBlockHeader p.1))
        ++ typeBlockFooter)
    ""

def messageBlock (op : SoapOperation) : String :=
  "    <message name=\"" ++ op.name ++ "Request\">\n"
    ++ "        <part name=\"parameters\" element=\"tns:"
    ++ extract_type_name op.request_type ++ "\"/>\n"
    ++ "    </message>\n    \n"
    ++ "    <message name=\"" ++ op.name ++ "Response\">\n"
    ++ "        <part name=\"parameters\" element=\"tns:"
    ++ extract_type_name op.response_type ++ "\"/>\n"
    ++ "    </message>\n    \n"

/-- `generate_messages` from src/codegen/wsdl.rs. -/
def generate_messages (ops : List SoapOperation) : String :=
  ops.foldl (fun m op => m ++ messageBlock op) ""

def portTypeOperation (op : SoapOperation) : String :=
  "        <operation name=\"" ++ op.name ++ "\">\n"
    ++ "            <input message=\"tns:" ++ op.name ++ "Request\"/>\n"
    ++ "            <output message=\"tns:" ++ op.name ++ "Response\"/>\n"
    ++ "        </operation>\n"

/-- `generate_port_type` from src/codegen/wsdl.rs. -/
def generate_port_type (config : ServiceConfig) (ops : List SoapOperation) : String :=
  (ops.foldl (fun s op => s ++ portTypeOperation op)
      ("    <portType name=\"" ++ config.port_name ++ "\">\n"))
    ++ "    </portType>\n"

def bindingOperation (nsUri : String) (op : SoapOperation) : String :=
  "        <operation name=\"" ++ op.name ++ "\">\n"
    ++ "            <soap:operation soapAction=\"" ++ nsUri ++ "/" ++ op.name ++ "\"/>\n"
    ++ "            <input>\n                <soap:body use=\"literal\"/>\n            </input>\n"
    ++ "            <output>\n                <soap:body use=\"literal\"/>\n            </output>\n"
    ++ "        </operation>\n"

/-- `generate_binding` from src/codegen/wsdl.rs. -/
def generate_binding (config : ServiceConfig) (ops : List SoapOperation) : String :=
  (ops.foldl (fun s op => s ++ bindingOperation config.namespaceUri op)
      ("    <binding name=\"" ++ config.service_name ++ "Binding\" type=\"tns:"
        ++ config.port_name ++ "\">\n"
        ++ "        <soap:binding style=\"document\" transport=\"http://schemas.xmlsoap.org/soap/http\"/>\n"))
    ++ "    </binding>\n"

/-- `generate_service` from src/codegen/wsdl.rs. -/
def generate_service (config : ServiceConfig) : String :=
  "    <service name=\"" ++ config.service_name ++ "\">\n"
    ++ "        <port name=\"" ++ config.port_name ++ "\" binding=\"tns:"
    ++ config.service_name ++ "Binding\">\n"
    ++ "            <soap:address location=\"http://localhost:8080" ++ config.bind_path ++ "\"/>\n"
    ++ "        </port>\n    </service>"

/-- `generate_wsdl` from src/codegen/wsdl.rs. -/
def generate_wsdl (config : ServiceConfig) (ops : List SoapOperation)
    (types : List (String × TypeInfo)) : String :=
  "<?xml version=\"1.0\" encoding=\"UTF-8\"?>\n"
    ++ "<definitions xmlns=\"http://schemas.xmlsoap.org/wsdl/\"\n"
    ++ "             xmlns:soap=\"http://schemas.xmlsoap.org/wsdl/soap/\"\n"
    ++ "             xmlns:tns=\"" ++ config.namespaceUri ++ "\"\n"
    ++ "             xmlns:xsd=\"http://www.w3.org/2001/XMLSchema\"\n"
    ++ "             targetNamespace=\"" ++ config.namespaceUri ++ "\"\n"
    ++ "             elementFormDefault=\"qualified\">\n\n"
    ++ "    <types>\n"
    ++ "        <xsd:schema targetNamespace=\"" ++ config.namespaceUri
    ++ "\" elementFormDefault=\"qualified\">\n"
    ++ generate_schema_types types
    ++ "\n        </xsd:schema>\n    </types>\n\n"
    ++ generate_messages ops
    ++ "\n\n"
    ++ generate_port_type config ops
    ++ "\n\n"
    ++ generate_binding config ops
    ++ "\n\n"
    ++ generate_service config
    ++ "\n\n</definitions>"

/-! ## Generated SOAP runtime (the `quote!` block in src/lib.rs) -/

/-- `ParsedSoapRequest` from the generated runtime (`namespace` field
renamed). -/
structure ParsedSoapRequest where
  operation : String
  body_xml : String
  nsAttr : Option String
deriving DecidableEq

/-- The pattern loops of `parse_soap_envelope`: try the patterns in
order and return the position (and pattern length) of the first pattern
that occurs anywhere in the text; Rust byte positions are modelled as
character positions (they agree on the ASCII tags involved). -/
def findFirstPattern : List String → List Char → Option (Nat × Nat)
  | [], _ => none
  | p :: rest, cs =>
    match findSub cs p.data with
    | some pos => some (pos, p.data.length)
    | none => findFirstPattern rest cs

/-- `extract_first_element_name` from the generated runtime in
src/lib.rs. -/
def extract_first_element_name (xml : String) : Except String String :=
  match trimList xml.data with
  | '<' :: after =>
    match after.findIdx? (fun c => c = '>') with
    | none => .error "Invalid XML: no closing bracket found"
    | some tagEnd =>
      let tagContent := after.take tagEnd
      let tagName := if tagContent.getLast? = some '/' then tagContent.dropLast else tagContent
      let cleanName := firstToken tagName
      let op := if cleanName.contains ':' then lastSegment ':' cleanName else cleanName
      .ok ⟨op⟩
  | _ => .error "No XML element found"

/-- `extract_target_namespace` from the generated runtime in
src/lib.rs. -/
def extract_target_namespace (xml : String) : Option String :=
  let viaTarget : Option String :=
    match findSub xml.data "targetNamespace=\"".data with
    | some st =>
      let after := xml.data.drop (st + 17)
      (after.findIdx? (fun c => c = '"')).map (fun e => ⟨after.take e⟩)
    | none => none
  match viaTarget with
  | some v => some v
  | none =>
    match findSub xml.data "xmlns=\"".data with
    | some st =>
      let after := xml.data.drop (st + 7)
      (after.findIdx? (fun c => c = '"')).map (fun e => ⟨after.take e⟩)
    | none => none

/-- `parse_soap_envelope` from the generated runtime in src/lib.rs. -/
def parse_soap_envelope (xml : String) : Except String ParsedSoapRequest :=
  let cs := xml.data
  match findFirstPattern ["<soap:Body>", "<SOAP-ENV:Body>", "<Body>"] cs with
  | none => .error "SOAP Body start tag not found"
  | some (bodyStart, bodyTagLen) =>
    match findFirstPattern ["</soap:Body>", "</SOAP-ENV:Body>", "</Body>"] cs with
    | none => .error "SOAP Body end tag not found"
    | some (bodyEnd, _) =>
      if bodyStart + bodyTagLen ≥ bodyEnd then .error "Invalid SOAP Body structure"
      else
        let bodyContent := (cs.drop (bodyStart + bodyTagLen)).take (bodyEnd - (bodyStart + bodyTagLen))
        let trimmedBody : String := ⟨trimList bodyContent⟩
        match extract_first_element_name trimmedBody with
        | .error e => .error e
        | .ok op => .ok ⟨op, trimmedBody, extract_target_namespace xml⟩

/-- Everything of the generated fault document before the inserted
message. -/
def faultDocOpen : String :=
  "<?xml version=\"1.0\" encoding=\"UTF-8\"?>\n"
    ++ "<soap:Envelope xmlns:soap=\"http://schemas.xmlsoap.org/soap/envelope/\">\n"
    ++ "    <soap:Body>\n        <soap:Fault>\n"
    ++ "            <faultcode>Server</faultcode>\n            <faultstring>"

/-- Everything of the generated fault document after the inserted
message. -/
def faultDocClose : String :=
  "</faultstring>\n        </soap:Fault>\n    </soap:Body>\n</soap:Envelope>"

/-- `create_soap_fault` from the generated runtime in src/lib.rs: the
error message is interpolated into the fault template verbatim. -/
def create_soap_fault (error : String) : String :=
  faultDocOpen ++ error ++ faultDocClose

/-- `create_simple_soap_response` from the generated runtime in
src/lib.rs. -/
def create_simple_soap_response (content operation nsUri : String) : String :=
  "<?xml version=\"1.0\" encoding=\"UTF-8\"?>\n"
    ++ "<soap:Envelope xmlns:soap=\"http://schemas.xmlsoap.org/soap/envelope/\"\n"
    ++ "               xmlns:tns=\"" ++ nsUri ++ "\">\n"
    ++ "    <soap:Body>\n        <tns:" ++ operation ++ "Response>\n            "
    ++ content ++ "\n        </tns:" ++ operation ++ "Response>\n"
    ++ "    </soap:Body>\n</soap:Envelope>"

/-- One branch emitted by `generate_operation_handlers`: the PascalCase
operation name it is guarded by, and the body of the branch (request
parsing, handler invocation and response serialisation) abstracted as a
function from the captured body fragment to either a response document
or an error message. -/
structure OpHandler where
  name : String
  branch : String → Except String String

/-- The cascade of `if operation == name { ... return ... }` branches
emitted by `generate_operation_handlers`, followed by the fallthrough
`Unknown operation` error of `handle_soap_request`: the first branch
whose name equals the parsed operation (string equality, hence exact
and case-sensitive) runs. -/
def dispatchOperations : List OpHandler → String → String → Except String String
  | [], operation, _ => .error ("Unknown operation: " ++ operation)
  | h :: rest, operation, body =>
    if operation = h.name then h.branch body else dispatchOperations rest operation body

/-- `handle_soap_request` from the generated runtime in src/lib.rs. -/
def handle_soap_request (ops : List OpHandler) (xml : String) : Except String String :=
  match parse_soap_envelope xml with
  | .error e => .error e
  | .ok req => dispatchOperations ops req.operation req.body_xml

/-- The response relevant parts of an `axum::response::Response` built
by `soap_handler`. -/
structure HttpResponse where
  status : Nat
  contentType : String
  soapAction : Option String
  body : String
deriving DecidableEq

/-- `soap_handler` from the generated runtime in src/lib.rs. -/
def soap_handler (ops : List OpHandler) (body : String) : HttpResponse :=
  match handle_soap_request ops body with
  | .ok response => ⟨200, "text/xml; charset=utf-8", some "", response⟩
  | .error e => ⟨500, "text/xml; charset=utf-8", none, create_soap_fault e⟩

/-! ## Envelope codec (src/soap/envelope.rs)

The codec drives a `quick_xml::Reader` with `trim_text(true)`; the
reader's default `check_end_names` stays on, so every end tag must
match the name of the innermost open start tag, and a mismatch makes
`read_event_into` return `Err(EndEventMismatch)`, which every caller in
envelope.rs propagates with `?`.  The external reader is modelled as a
tokenizer from text to XML events (whitespace-only text nodes dropped,
text trimmed, XML declarations skipped) threading the stack of open
element names: a mismatched end tag emits a terminal `errEnd` event
carrying the expected and found names and ends the stream, which is
faithful for the consumers here — they all stop reading at the first
error.  The external `Writer` is modelled by rendering events back to
text. -/

inductive XEvent where
  | start (name : String) (attrs : List (String × String))
  | close (name : String)
  | text (s : String)
  | empty (name : String) (attrs : List (String × String))
  | decl
  | errEnd (expected found : String)
deriving DecidableEq

/-- The `Display` rendering of `quick_xml`'s `EndEventMismatch` error,
the payload carried through `SoapError::XmlError`. -/
def endMismatchMsg (expected found : String) : String :=
  "Expecting </" ++ expected ++ "> found </" ++ found ++ ">"

/-- Lex `key="value"` attribute pairs from the remainder of a start
tag. -/
def lexAttrsAux (fuel : Nat) (cs : List Char) : List (String × String) :=
  match fuel with
  | 0 => []
  | fuel + 1 =>
    let cs1 := cs.dropWhile isWs
    match cs1 with
    | [] => []
    | _ =>
      let key := cs1.takeWhile (fun c => c ≠ '=')
      match cs1.dropWhile (fun c => c ≠ '=') with
      | '=' :: '"' :: r2 =>
        let v := r2.takeWhile (fun c => c ≠ '"')
        let r3 := (r2.dropWhile (fun c => c ≠ '"')).drop 1
        (⟨key⟩, ⟨v⟩) :: lexAttrsAux fuel r3
      | _ => []

/-- Split the inside of a start tag into element name and attributes. -/
def parseTag (cs : List Char) : String × List (String × String) :=
  let nm := cs.takeWhile (fun c => !isWs c)
  let rest := cs.dropWhile (fun c => !isWs c)
  (⟨nm⟩, lexAttrsAux rest.length rest)

/-- Model of the `quick_xml` pull reader with `trim_text(true)` and the
default `check_end_names`: `stack` is the stack of open element names;
an end tag that does not match the innermost open name (or arrives with
no element open) produces the reader error as a terminal `errEnd`
event. -/
def tokenizeAux (fuel : Nat) (cs : List Char) (stack : List String) : List XEvent :=
  match fuel with
  | 0 => []
  | fuel + 1 =>
    match cs with
    | [] => []
    | c :: rest =>
      if c = '<' then
        if rest.head? = some '?' then
          match findSub (rest.drop 1) "?>".data with
          | some i => .decl :: tokenizeAux fuel ((rest.drop 1).drop (i + 2)) stack
          | none => [.decl]
        else if rest.head? = some '/' then
          match stack with
          | [] => [.errEnd "" ⟨(rest.drop 1).takeWhile (fun c => c ≠ '>')⟩]
          | top :: stack2 =>
            if top = (⟨(rest.drop 1).takeWhile (fun c => c ≠ '>')⟩ : String) then
              .close ⟨(rest.drop 1).takeWhile (fun c => c ≠ '>')⟩
                :: tokenizeAux fuel (((rest.drop 1).dropWhile (fun c => c ≠ '>')).drop 1)
                     stack2
            else [.errEnd top ⟨(rest.drop 1).takeWhile (fun c => c ≠ '>')⟩]
        else
          let tagc := rest.takeWhile (fun c => c ≠ '>')
          let r3 := (rest.dropWhile (fun c => c ≠ '>')).drop 1
          if tagc.getLast? = some '/' then
            .empty (parseTag tagc.dropLast).1 (parseTag tagc.dropLast).2
              :: tokenizeAux fuel r3 stack
          else
            .start (parseTag tagc).1 (parseTag tagc).2
              :: tokenizeAux fuel r3 ((parseTag tagc).1 :: stack)
      else
        let txt := cs.takeWhile (fun c => c ≠ '<')
        let r2 := cs.dropWhile (fun c => c ≠ '<')
        if trimList txt = [] then tokenizeAux fuel r2 stack
        else .text ⟨trimList txt⟩ :: tokenizeAux fuel r2 stack

/-- The reader model on character lists, with enough fuel to consume
the whole input. -/
def tokList (cs : List Char) (stack : List String) : List XEvent :=
  tokenizeAux (cs.length + 1) cs stack

def tokenize (s : String) : List XEvent :=
  tokList s.data []

def renderAttrs (attrs : List (String × String)) : String :=
  attrs.foldl (fun acc kv => acc ++ " " ++ kv.1 ++ "=\"" ++ kv.2 ++ "\"") ""

def renderStartTag (n : String) (attrs : List (String × String)) : String :=
  "<" ++ n ++ renderAttrs attrs ++ ">"

def renderCloseTag (n : String) : String :=
  "</" ++ n ++ ">"

def renderEmptyTag (n : String) (attrs : List (String × String)) : String :=
  "<" ++ n ++ renderAttrs attrs ++ "/>"

/-- The Body-tag test of `parse_soap_request`:
`name.ends_with(":Body") || name == "Body"`. -/
def isBodyName (n : String) : Bool :=
  (":Body".data).isSuffixOf n.data || n = "Body"

/-- `SoapRequest` from src/soap/envelope.rs (the `headers` map is
always created empty and is omitted; `namespace` field renamed). -/
structure SoapRequestC where
  operation : String
  body : String
  nsAttr : Option String
deriving DecidableEq

/-- The inner capture loop of `parse_soap_request`: re-serialise events
through the writer until the depth counter returns to zero, and return
the captured fragment together with the unconsumed events; a reader
error (mismatched end tag) is propagated by the loop's `?`. -/
def captureOperationSubtree : List XEvent → Nat → String →
    Except String (String × List XEvent)
  | [], _, acc => .ok (acc, [])
  | e :: rest, depth, acc =>
    match e with
    | .start n a => captureOperationSubtree rest (depth + 1) (acc ++ renderStartTag n a)
    | .close n =>
      if depth = 1 then .ok (acc ++ renderCloseTag n, rest)
      else captureOperationSubtree rest (depth - 1) (acc ++ renderCloseTag n)
    | .text s => captureOperationSubtree rest depth (acc ++ s)
    | .empty n a => captureOperationSubtree rest depth (acc ++ renderEmptyTag n a)
    | .decl => captureOperationSubtree rest depth acc
    | .errEnd exp fnd => .error (endMismatchMsg exp fnd)

/-- The outer event loop of `parse_soap_request`: find the Body, take
the next start element at depth one as the operation element (its full
qualified name, its `xmlns` attribute, and its captured subtree), and
stop at the Body end tag or at end of input; `.ok none` is a loop that
ended without finding an operation, while a reader error (mismatched
end tag) is propagated by the loop's `?`. -/
def seekOperation : List XEvent → Bool → Nat →
    Except String (Option (String × Option String × String))
  | [], _, _ => .ok none
  | e :: rest, inBody, depth =>
    match e with
    | .start n attrs =>
      if isBodyName n then seekOperation rest true 1
      else if inBody ∧ depth = 1 then
        let ns := (attrs.reverse.find? (fun kv => kv.1 = "xmlns")).map (fun kv => kv.2)
        match captureOperationSubtree rest 1 (renderStartTag n attrs) with
        | .error e => .error e
        | .ok cap => .ok (some (n, ns, cap.1))
      else if inBody then seekOperation rest inBody (depth + 1)
      else seekOperation rest inBody depth
    | .close n =>
      if inBody ∧ isBodyName n then .ok none
      else if inBody then seekOperation rest inBody (depth - 1)
      else seekOperation rest inBody depth
    | .errEnd exp fnd => .error (endMismatchMsg exp fnd)
    | _ => seekOperation rest inBody depth

/-- `parse_soap_request` from src/soap/envelope.rs. -/
def parse_soap_request (xml : String) : Except String SoapRequestC :=
  match seekOperation (tokenize xml) false 0 with
  | .error e => .error e
  | .ok none => .error "No operation found in SOAP body"
  | .ok (some (op, ns, frag)) =>
    if op = "" then .error "No operation found in SOAP body"
    else .ok ⟨op, frag, ns⟩

/-- The event loop of `extract_inner_xml` from src/soap/envelope.rs.
Note that the root-closing detection fires only while the accumulated
content is still empty; otherwise the close tag is appended to the
output (attributes of re-emitted start tags are dropped, text is
entity-decoded); a reader error is propagated by the loop's `?`. -/
def extractInnerLoop : List XEvent → Bool → String → Except String String
  | [], _, content => .ok content
  | e :: rest, insideRoot, content =>
    match e with
    | .start n _ =>
      if insideRoot then extractInnerLoop rest insideRoot (content ++ "<" ++ n ++ ">")
      else extractInnerLoop rest true content
    | .close n =>
      if insideRoot then
        if content = "" then .ok content
        else extractInnerLoop rest insideRoot (content ++ "</" ++ n ++ ">")
      else extractInnerLoop rest insideRoot content
    | .text s =>
      if insideRoot then extractInnerLoop rest insideRoot (content ++ singlePassDecode s)
      else extractInnerLoop rest insideRoot content
    | .empty n _ =>
      if insideRoot then extractInnerLoop rest insideRoot (content ++ "<" ++ n ++ "/>")
      else extractInnerLoop rest insideRoot content
    | .decl => extractInnerLoop rest insideRoot content
    | .errEnd exp fnd => .error (endMismatchMsg exp fnd)

def extract_inner_xml (xml : String) : Except String String :=
  extractInnerLoop (tokenize xml) false ""

/-- Model of the external `quick_xml::se::to_string` serialiser for a
flat struct: a root element named after the type containing one child
element per field, in field order, with text entity-escaped; a struct
serialising to no children becomes a self-closing root element. -/
def xmlEscape (s : String) : String :=
  ⟨s.data.flatMap (fun c =>
    if c = '&' then "&amp;".data
    else if c = '<' then "&lt;".data
    else if c = '>' then "&gt;".data
    else if c = '"' then "&quot;".data
    else if c = '\'' then "&apos;".data
    else [c])⟩

def renderFieldEl (kv : String × String) : String :=
  "<" ++ kv.1 ++ ">" ++ xmlEscape kv.2 ++ "</" ++ kv.1 ++ ">"

def quickxml_se (root : String) (fields : List (String × String)) : String :=
  if fields = [] then "<" ++ root ++ "/>"
  else
    "<" ++ root ++ ">"
      ++ (fields.foldl (fun acc kv => acc ++ renderFieldEl kv) "")
      ++ "</" ++ root ++ ">"

/-- The response-envelope `format!` template of `create_soap_response`
from src/soap/envelope.rs, applied to the already-extracted inner
XML. -/
def respEnvelope (inner operation nsUri : String) : String :=
  "<?xml version=\"1.0\" encoding=\"UTF-8\"?>\n"
    ++ "<soap:Envelope xmlns:soap=\"http://schemas.xmlsoap.org/soap/envelope/\"\n"
    ++ "               xmlns:tns=\"" ++ nsUri ++ "\">\n"
    ++ "    <soap:Body>\n        <tns:" ++ (operation ++ "Response") ++ ">\n            "
    ++ inner
    ++ "\n        </tns:" ++ (operation ++ "Response") ++ ">\n"
    ++ "    </soap:Body>\n</soap:Envelope>"

/-- `create_soap_response` from src/soap/envelope.rs, specialised to
response values serialised by the `quickxml_se` model (given as root
name plus fields); the `?` on `extract_inner_xml` propagates its
errors. -/
def create_soap_response (root : String) (fields : List (String × String))
    (operation nsUri : String) : Except String String :=
  match extract_inner_xml (quickxml_se root fields) with
  | .error e => .error e
  | .ok inner => .ok (respEnvelope inner operation nsUri)

/-- Model of the external `quick_xml::de` deserialiser for a flat
struct: consume one child element per field (matching end-tag names, as
the serde deserialiser does), then the root end tag, whose name must
match the root start tag. -/
def quickxml_de_fields : List XEvent → String → List (String × String) →
    Option (List (String × String))
  | [.close root2], root, acc =>
    if root2 = root then some acc.reverse else none
  | .start f _ :: .text v :: .close f2 :: rest, root, acc =>
    if f2 = f then quickxml_de_fields rest root ((f, singlePassDecode v) :: acc) else none
  | .start f _ :: .close f2 :: rest, root, acc =>
    if f2 = f then quickxml_de_fields rest root ((f, "") :: acc) else none
  | _, _, _ => none

def quickxml_de (xml : String) : Option (List (String × String)) :=
  match tokenize xml with
  | .start root _ :: rest => quickxml_de_fields rest root []
  | [.empty _ _] => some []
  | _ => none

/-! ## Generic lemmas about the utility layer -/

set_option maxRecDepth 100000

theorem length_dropWhile_le (p : Char → Bool) (l : List Char) :
    (l.dropWhile p).length ≤ l.length := by
  induction l with
  | nil => simp
  | cons x xs ih =>
    by_cases h : p x <;> simp [List.dropWhile_cons, h] <;> omega

theorem takeWhile_all (p : Char → Bool) (l : List Char) (h : ∀ x ∈ l, p x = true) :
    l.takeWhile p = l := by
  induction l with
  | nil => rfl
  | cons x xs ih =>
    rw [List.takeWhile_cons, h x (List.mem_cons_self _ _)]
    exact congrArg _ (ih fun x hx => h x (List.mem_cons_of_mem _ hx))

theorem dropWhile_all (p : Char → Bool) (l : List Char) (h : ∀ x ∈ l, p x = true) :
    l.dropWhile p = [] := by
  induction l with
  | nil => rfl
  | cons x xs ih =>
    rw [List.dropWhile_cons, h x (List.mem_cons_self _ _)]
    exact ih fun x hx => h x (List.mem_cons_of_mem _ hx)

theorem takeWhile_append_stop (p : Char → Bool) (a : List Char) (c : Char) (b : List Char)
    (ha : ∀ x ∈ a, p x = true) (hc : p c = false) :
    (a ++ c :: b).takeWhile p = a := by
  induction a with
  | nil => simp [List.takeWhile_cons, hc]
  | cons x xs ih =>
    rw [List.cons_append, List.takeWhile_cons, ha x (List.mem_cons_self _ _)]
    exact congrArg _ (ih fun x hx => ha x (List.mem_cons_of_mem _ hx))

theorem dropWhile_append_stop (p : Char → Bool) (a : List Char) (c : Char) (b : List Char)
    (ha : ∀ x ∈ a, p x = true) (hc : p c = false) :
    (a ++ c :: b).dropWhile p = c :: b := by
  induction a with
  | nil => simp [List.dropWhile_cons, hc]
  | cons x xs ih =>
    rw [List.cons_append, List.dropWhile_cons, ha x (List.mem_cons_self _ _)]
    exact ih fun x hx => ha x (List.mem_cons_of_mem _ hx)

theorem findIdx?_append_stop (p : Char → Bool) (a : List Char) (c : Char) (b : List Char)
    (ha : ∀ x ∈ a, p x = false) (hc : p c = true) :
    (a ++ c :: b).findIdx? p = some a.length := by
  induction a with
  | nil => simp [hc]
  | cons x xs ih =>
    have hx := ha x (List.mem_cons_self _ _)
    have hrest := ih fun y hy => ha y (List.mem_cons_of_mem _ hy)
    simp [List.findIdx?_cons, hx, hrest]

theorem findSub_append_head (a b pat : List Char) (q : Char)
    (hq : pat.head? = some q) (hna : q ∉ a) (hb : pat.isPrefixOf b = true) :
    findSub (a ++ b) pat = some a.length := by
  induction a with
  | nil =>
    rw [List.nil_append, findSub.eq_def, if_pos hb]
    rfl
  | cons x xs ih =>
    rcases pat with _ | ⟨p0, pr⟩
    · simp at hq
    · simp only [List.head?_cons, Option.some.injEq] at hq
      have hqx : (p0 == x) = false := by
        have : q ≠ x := fun h => hna (h ▸ List.mem_cons_self x xs)
        simp [hq, this]
      have hpre : (p0 :: pr).isPrefixOf (x :: (xs ++ b)) = false := by
        simp only [List.isPrefixOf]
        rw [hqx, Bool.false_and]
      rw [List.cons_append, findSub.eq_def, if_neg (by simp [hpre])]
      show (findSub (xs ++ b) (p0 :: pr)).map (· + 1) = some (x :: xs).length
      rw [ih (fun h => hna (List.mem_cons_of_mem _ h))]
      rfl

/-! ## Concatenation form of the string-building folds -/

def concatStrs : List String → String
  | [] => ""
  | s :: rest => s ++ concatStrs rest

theorem foldl_append_concatStrs {α : Type} (f : α → String) (l : List α) :
    ∀ init : String, l.foldl (fun acc x => acc ++ f x) init = init ++ concatStrs (l.map f) := by
  induction l with
  | nil => intro init; simp [concatStrs, String.append_empty]
  | cons x xs ih =>
    intro init
    simp only [List.foldl_cons, List.map_cons, concatStrs]
    rw [ih, String.append_assoc]

/-- The whole per-type emission of `generate_schema_types`, as one
string: one XSD element declaration, one complex type, one sequence of
the field lines in declared order. -/
def schemaBlockImpl (p : String × TypeInfo) : String :=
  typeBlockHeader p.1 ++ (concatStrs (p.2.fields.map fieldLine) ++ typeBlockFooter)

theorem generate_schema_types_eq (types : List (String × TypeInfo)) :
    generate_schema_types types = concatStrs (types.map schemaBlockImpl) := by
  have haux : ∀ (l : List (String × TypeInfo)) (init : String),
      l.foldl
        (fun schema p =>
          (p.2.fields.foldl (fun s f => s ++ fieldLine f) (schema ++ typeBlockHeader p.1))
            ++ typeBlockFooter) init
        = init ++ concatStrs (l.map schemaBlockImpl) := by
    intro l
    induction l with
    | nil => intro init; simp [concatStrs, String.append_empty]
    | cons x xs ih =>
      intro init
      simp only [List.foldl_cons, List.map_cons, concatStrs]
      rw [foldl_append_concatStrs, ih, schemaBlockImpl]
      simp only [String.append_assoc]
  rw [generate_schema_types, haux, String.empty_append]

theorem generate_messages_eq (ops : List SoapOperation) :
    generate_messages ops = concatStrs (ops.map messageBlock) := by
  rw [generate_messages, foldl_append_concatStrs, String.empty_append]

theorem generate_port_type_eq (config : ServiceConfig) (ops : List SoapOperation) :
    generate_port_type config ops
      = ("    <portType name=\"" ++ config.port_name ++ "\">\n")
        ++ (concatStrs (ops.map portTypeOperation) ++ "    </portType>\n") := by
  rw [generate_port_type, foldl_append_concatStrs]
  simp only [String.append_assoc]

theorem generate_binding_eq (config : ServiceConfig) (ops : List SoapOperation) :
    generate_binding config ops
      = ("    <binding name=\"" ++ config.service_name ++ "Binding\" type=\"tns:"
          ++ config.port_name ++ "\">\n"
          ++ "        <soap:binding style=\"document\" transport=\"http://schemas.xmlsoap.org/soap/http\"/>\n")
        ++ (concatStrs (ops.map (bindingOperation config.namespaceUri)) ++ "    </binding>\n") := by
  rw [generate_binding, foldl_append_concatStrs]
  simp only [String.append_assoc]

/-! ## Shared concrete instances used by witnesses and counterexamples -/

def cfgCalc : ServiceConfig := ⟨"http://ex.com/calc", "CalcService", "CalcPort", "/soap/calc"⟩

def tiAddReq : TypeInfo := ⟨"AddRequest", [], none⟩

def tiAddResp : TypeInfo := ⟨"AddResponse", [], none⟩

def catalogAB : List (String × TypeInfo) := [("AddRequest", tiAddReq), ("AddResponse", tiAddResp)]

def catalogBA : List (String × TypeInfo) := [("AddResponse", tiAddResp), ("AddRequest", tiAddReq)]

def opsAddW : List SoapOperation := [⟨"Add", "add", .path0 ["AddRequest"], .path0 ["AddResponse"]⟩]

/-! ## C1 — WSDL determinism and type-iteration order -/

/-- C1 (counterexample): the claim asserts that `generate_wsdl` imposes
a stable type-iteration order (e.g. sorted by type name) so that two
catalogs that are equal as unordered maps produce byte-identical WSDL
text.  The two catalogs below hold the same key-value pairs (they are a
permutation of one another, and agree under lookup on every key), yet
`generate_wsdl` emits different documents, because
`generate_schema_types` iterates the `HashMap` in whatever order it is
handed and never sorts. -/
theorem wsdl_map_order_counterexample_c1 :
    catalogAB.Perm catalogBA ∧
    (∀ k, catalogAB.lookup k = catalogBA.lookup k) ∧
    generate_wsdl cfgCalc [] catalogAB ≠ generate_wsdl cfgCalc [] catalogBA := by
  refine ⟨List.Perm.swap _ _ _, ?_, by decide⟩
  intro k
  by_cases h1 : k = "AddRequest"
  · subst h1; rfl
  · by_cases h2 : k = "AddResponse"
    · subst h2; rfl
    · have e1 : (k == "AddRequest") = false := beq_eq_false_iff_ne.mpr h1
      have e2 : (k == "AddResponse") = false := beq_eq_false_iff_ne.mpr h2
      simp [catalogAB, catalogBA, List.lookup, e1, e2]

/-- C1 (amended): `generate_wsdl` is deterministic only relative to the
catalog's iteration order: it is a pure function of the configuration,
the operation list and the catalog association list, and its schema
section emits one block per catalog entry exactly in catalog-iteration
order (no sorting by type name is applied). -/
theorem wsdl_deterministic_given_order_c1 (config : ServiceConfig)
    (ops : List SoapOperation) (types : List (String × TypeInfo)) :
    generate_wsdl config ops types
      = "<?xml version=\"1.0\" encoding=\"UTF-8\"?>\n"
        ++ "<definitions xmlns=\"http://schemas.xmlsoap.org/wsdl/\"\n"
        ++ "             xmlns:soap=\"http://schemas.xmlsoap.org/wsdl/soap/\"\n"
        ++ "             xmlns:tns=\"" ++ config.namespaceUri ++ "\"\n"
        ++ "             xmlns:xsd=\"http://www.w3.org/2001/XMLSchema\"\n"
        ++ "             targetNamespace=\"" ++ config.namespaceUri ++ "\"\n"
        ++ "             elementFormDefault=\"qualified\">\n\n"
        ++ "    <types>\n"
        ++ "        <xsd:schema targetNamespace=\"" ++ config.namespaceUri
        ++ "\" elementFormDefault=\"qualified\">\n"
        ++ concatStrs (types.map schemaBlockImpl)
        ++ "\n        </xsd:schema>\n    </types>\n\n"
        ++ concatStrs (ops.map messageBlock)
        ++ "\n\n"
        ++ (("    <portType name=\"" ++ config.port_name ++ "\">\n")
            ++ (concatStrs (ops.map portTypeOperation) ++ "    </portType>\n"))
        ++ "\n\n"
        ++ (("    <binding name=\"" ++ config.service_name ++ "Binding\" type=\"tns:"
            ++ config.port_name ++ "\">\n"
            ++ "        <soap:binding style=\"document\" transport=\"http://schemas.xmlsoap.org/soap/http\"/>\n")
            ++ (concatStrs (ops.map (bindingOperation config.namespaceUri)) ++ "    </binding>\n"))
        ++ "\n\n"
        ++ generate_service config
        ++ "\n\n</definitions>" := by
  rw [generate_wsdl, generate_schema_types_eq, generate_messages_eq,
    generate_port_type_eq, generate_binding_eq]

/-! ## C10 — the placeholder type analyzer yields empty field lists -/

theorem analyze_type_fields (t : SynType) (ti : TypeInfo)
    (h : analyze_type t = .ok ti) : ti.fields = [] := by
  cases t with
  | path0 segs => simp only [analyze_type, Except.ok.injEq] at h; rw [← h]
  | path1 segs arg => simp only [analyze_type, Except.ok.injEq] at h; rw [← h]
  | other => simp [analyze_type] at h

theorem insertType_preserve {P : TypeInfo → Prop} (m : List (String × TypeInfo)) (v : TypeInfo)
    (hm : ∀ p ∈ m, P p.2) (hv : P v) : ∀ p ∈ insertType m v, P p.2 := by
  intro p hp
  unfold insertType at hp
  split at hp
  · rcases List.mem_map.mp hp with ⟨q, hq, rfl⟩
    by_cases h : q.1 = v.name
    · simp only [h, if_pos rfl]; exact hv
    · simp only [if_neg h]; exact hm q hq
  · rcases List.mem_append.mp hp with h | h
    · exact hm p h
    · rw [List.mem_singleton] at h; rw [h]; exact hv

theorem collectTypesAux_fields (ops : List SoapOperation) :
    ∀ (acc m : List (String × TypeInfo)),
      (∀ p ∈ acc, p.2.fields = []) → collectTypesAux acc ops = .ok m →
      ∀ p ∈ m, p.2.fields = [] := by
  induction ops with
  | nil =>
    intro acc m hacc h
    simp only [collectTypesAux, Except.ok.injEq] at h
    rw [← h]; exact hacc
  | cons op rest ih =>
    intro acc m hacc h
    simp only [collectTypesAux] at h
    rcases h1 : analyze_type op.request_type with e1 | rq
    · rw [h1] at h; exact absurd h (by simp)
    · rw [h1] at h
      rcases h2 : analyze_type op.response_type with e2 | rs
      · rw [h2] at h; exact absurd h (by simp)
      · rw [h2] at h
        exact ih _ m
          (insertType_preserve (P := fun ti => ti.fields = []) _ _
            (insertType_preserve (P := fun ti => ti.fields = []) _ _ hacc
              (analyze_type_fields _ _ h1))
            (analyze_type_fields _ _ h2)) h

/-- C10: every entry of the catalog built by
`collect_types_from_operations` has an empty field list (`analyze_type`
never inspects the struct definition), so the WSDL schema section for
such a catalog consists solely of complex types with empty
`xsd:sequence` elements, regardless of the actual struct fields. -/
theorem placeholder_catalog_c10 (ops : List SoapOperation) (m : List (String × TypeInfo))
    (h : collect_types_from_operations ops = .ok m) :
    (∀ p ∈ m, p.2.fields = []) ∧
    generate_schema_types m
      = concatStrs (m.map (fun p => typeBlockHeader p.1 ++ typeBlockFooter)) := by
  have hf : ∀ p ∈ m, p.2.fields = [] :=
    collectTypesAux_fields ops [] m (by simp) h
  refine ⟨hf, ?_⟩
  rw [generate_schema_types_eq]
  congr 1
  apply List.map_congr_left
  intro p hp
  rw [schemaBlockImpl, hf p hp]
  simp [concatStrs, String.empty_append]

/-- C10 (witness): evaluated on the one-operation service
`add : AddRequest -> AddResponse`. -/
theorem placeholder_catalog_c10_witness :
    (∀ p ∈ catalogAB, p.2.fields = []) ∧
    generate_schema_types catalogAB
      = concatStrs (catalogAB.map (fun p => typeBlockHeader p.1 ++ typeBlockFooter)) :=
  placeholder_catalog_c10 opsAddW catalogAB rfl

/-! ## C7 — schema field emission -/

/-- Whether a `FieldType` is the `Optional` kind. -/
def isOptionalKind : FieldType → Bool
  | .optional _ => true
  | _ => false

/-- One schema field line as the spec words it: XSD type from the fixed
table and `minOccurs="0"` exactly when the field kind is `Optional`. -/
def specFieldLine (f : FieldInfo) : String :=
  "                    <xsd:element name=\"" ++ f.xml_name ++ "\" type=\""
    ++ f.field_type.toXsd ++ "\""
    ++ (if isOptionalKind f.field_type then " minOccurs=\"0\"" else "") ++ "/>" ++ "\n"

/-- One schema type block as the spec words it: one XSD element
wrapping one complex type whose sequence lists the fields in declared
order. -/
def schemaBlockSpec (tn : String) (fields : List FieldInfo) : String :=
  typeBlockHeader tn ++ (concatStrs (fields.map specFieldLine) ++ typeBlockFooter)

/-- The analyzer invariant connecting the two optionality sources: a
path whose name resolves to `Option` carries a generic type argument
(true of every well-typed Rust `Option<T>` field). -/
def optionArgApplied : SynType → Prop
  | .path0 segs => ((segs.getLast?).getD "Unknown") ≠ "Option"
  | .path1 _ _ => True
  | .other => True

theorem primFieldType_not_optional (n : String) : isOptionalKind (primFieldType n) = false := by
  unfold primFieldType
  repeat' split
  all_goals rfl

theorem analyzer_optional_coherent (ty : SynType) (k : FieldType)
    (h : analyze_field_type ty = .ok k) (ha : optionArgApplied ty) :
    is_optional_type ty = isOptionalKind k := by
  cases ty with
  | path0 segs =>
    simp only [analyze_field_type, Except.ok.injEq] at h
    rw [← h, primFieldType_not_optional]
    simp only [optionArgApplied] at ha
    simp [is_optional_type, ha]
  | path1 segs arg =>
    by_cases hn : ((segs.getLast?).getD "Unknown") = "Option"
    · simp only [analyze_field_type, if_pos hn] at h
      rcases h2 : analyze_field_type arg with e | k2
      · rw [h2] at h; simp [Except.map] at h
      · rw [h2] at h
        simp only [Except.map, Except.ok.injEq] at h
        rw [← h]
        simp [is_optional_type, hn, isOptionalKind]
    · by_cases hv : ((segs.getLast?).getD "Unknown") = "Vec"
      · simp only [analyze_field_type, if_neg hn, if_pos hv] at h
        rcases h2 : analyze_field_type arg with e | k2
        · rw [h2] at h; simp [Except.map] at h
        · rw [h2] at h
          simp only [Except.map, Except.ok.injEq] at h
          rw [← h]
          simp [is_optional_type, hn, isOptionalKind]
      · simp only [analyze_field_type, if_neg hn, if_neg hv, Except.ok.injEq] at h
        rw [← h, primFieldType_not_optional]
        simp [is_optional_type, hn]
  | other => simp [analyze_field_type] at h

/-- C7: for a catalog whose fields carry the analyzer's optionality
flag (`optional` agrees with the kind being `Optional`, which
`analyze_field_type` and `is_optional_type` guarantee for every
well-formed field type), the schema section consists of exactly one
XSD element wrapping one complex type per catalog entry, whose
sequence lists the fields in declared order, each field typed by the
fixed table and carrying `minOccurs="0"` if and only if its kind is
`Optional`. -/
theorem schema_field_emission_c7 (cat : List (String × TypeInfo))
    (hco : ∀ p ∈ cat, ∀ f ∈ p.2.fields, f.optional = isOptionalKind f.field_type) :
    generate_schema_types cat
      = concatStrs (cat.map (fun p => schemaBlockSpec p.1 p.2.fields)) ∧
    (∀ (ty : SynType) (k : FieldType), analyze_field_type ty = .ok k →
      optionArgApplied ty → is_optional_type ty = isOptionalKind k) ∧
    FieldType.toXsd .string = "xsd:string" ∧
    FieldType.toXsd .i32 = "xsd:int" ∧
    FieldType.toXsd .i64 = "xsd:long" ∧
    FieldType.toXsd .f32 = "xsd:float" ∧
    FieldType.toXsd .f64 = "xsd:double" ∧
    FieldType.toXsd .boolean = "xsd:boolean" ∧
    (∀ n, FieldType.toXsd (.custom n) = "tns:" ++ n ++ "Type") ∧
    (∀ t, FieldType.toXsd (.optional t) = t.toXsd) := by
  refine ⟨?_, analyzer_optional_coherent, rfl, rfl, rfl, rfl, rfl, rfl,
    fun n => rfl, fun t => rfl⟩
  rw [generate_schema_types_eq]
  congr 1
  apply List.map_congr_left
  intro p hp
  rw [schemaBlockImpl, schemaBlockSpec]
  have hfl : p.2.fields.map fieldLine = p.2.fields.map specFieldLine :=
    List.map_congr_left fun f hf => by
      rw [fieldLine, specFieldLine, hco p hp f hf]
  rw [hfl]

def catW7 : List (String × TypeInfo) :=
  [("AddRequest",
    ⟨"AddRequest",
      [⟨"a", "a", .i32, false⟩, ⟨"note", "note", .optional .string, true⟩], none⟩)]

/-- C7 (witness): a catalog with a required int field and an optional
string field. -/
theorem schema_field_emission_c7_witness :
    generate_schema_types catW7
      = concatStrs (catW7.map (fun p => schemaBlockSpec p.1 p.2.fields)) ∧
    (∀ (ty : SynType) (k : FieldType), analyze_field_type ty = .ok k →
      optionArgApplied ty → is_optional_type ty = isOptionalKind k) ∧
    FieldType.toXsd .string = "xsd:string" ∧
    FieldType.toXsd .i32 = "xsd:int" ∧
    FieldType.toXsd .i64 = "xsd:long" ∧
    FieldType.toXsd .f32 = "xsd:float" ∧
    FieldType.toXsd .f64 = "xsd:double" ∧
    FieldType.toXsd .boolean = "xsd:boolean" ∧
    (∀ n, FieldType.toXsd (.custom n) = "tns:" ++ n ++ "Type") ∧
    (∀ t, FieldType.toXsd (.optional t) = t.toXsd) :=
  schema_field_emission_c7 catW7 (by decide)

/-! ## C5 — dispatcher behaviour -/

theorem dispatchOperations_unknown (ops : List OpHandler) (operation body : String)
    (h : ∀ o ∈ ops, o.name ≠ operation) :
    dispatchOperations ops operation body = .error ("Unknown operation: " ++ operation) := by
  induction ops with
  | nil => rfl
  | cons o rest ih =>
    simp only [dispatchOperations]
    rw [if_neg fun hc => h o (List.mem_cons_self _ _) hc.symm]
    exact ih fun x hx => h x (List.mem_cons_of_mem _ hx)

/-- C5: when the parsed operation matches no registered operation name
(string comparison, hence exact and case-sensitive), the handler
returns status 500 with a fault whose faultstring is exactly
`Unknown operation: {name}`; on full success it returns status 200,
`Content-Type: text/xml; charset=utf-8` and an empty `SOAPAction`
header. -/
theorem dispatcher_fault_and_success_c5 (ops : List OpHandler) (xml : String)
    (req : ParsedSoapRequest) (hp : parse_soap_envelope xml = .ok req) :
    ((∀ o ∈ ops, o.name ≠ req.operation) →
      soap_handler ops xml
        = ⟨500, "text/xml; charset=utf-8", none,
            create_soap_fault ("Unknown operation: " ++ req.operation)⟩) ∧
    (∀ resp, dispatchOperations ops req.operation req.body_xml = .ok resp →
      soap_handler ops xml = ⟨200, "text/xml; charset=utf-8", some "", resp⟩) := by
  constructor
  · intro hu
    unfold soap_handler handle_soap_request
    rw [hp]
    dsimp only
    rw [dispatchOperations_unknown ops req.operation req.body_xml hu]
  · intro resp hr
    unfold soap_handler handle_soap_request
    rw [hp]
    dsimp only
    rw [hr]

def opsW5 : List OpHandler := [⟨"Add", fun _ => .ok "AddResult"⟩]

def envSubW : String :=
  "<soap:Envelope><soap:Body><Subtract><a>1</a></Subtract></soap:Body></soap:Envelope>"

def envAddW : String :=
  "<soap:Envelope><soap:Body><Add><a>1</a></Add></soap:Body></soap:Envelope>"

/-- C5 (witness): a `Subtract` request against a service registering
only `Add` faults with status 500, and an `Add` request succeeds with
status 200. -/
theorem dispatcher_fault_and_success_c5_witness :
    soap_handler opsW5 envSubW
      = ⟨500, "text/xml; charset=utf-8", none,
          create_soap_fault "Unknown operation: Subtract"⟩ ∧
    soap_handler opsW5 envAddW = ⟨200, "text/xml; charset=utf-8", some "", "AddResult"⟩ := by
  constructor
  · exact (dispatcher_fault_and_success_c5 opsW5 envSubW
      ⟨"Subtract", "<Subtract><a>1</a></Subtract>", none⟩ rfl).1
      (by
        intro o ho
        simp only [opsW5, List.mem_singleton] at ho
        rw [ho]
        decide)
  · exact (dispatcher_fault_and_success_c5 opsW5 envAddW
      ⟨"Add", "<Add><a>1</a></Add>", none⟩ rfl).2 "AddResult" rfl

/-! ## C8 — operation-name derivation -/

/-- C8: operation-name derivation is a pure function of the handler
name: split on underscores and capitalise the first character of each
segment, leaving the rest unchanged; in particular `add` becomes `Add`,
`multiply_numbers` becomes `MultiplyNumbers` and `get_HTTPStatus`
becomes `GetHTTPStatus`. -/
theorem operation_name_derivation_c8 :
    generate_operation_name "add" = "Add" ∧
    generate_operation_name "multiply_numbers" = "MultiplyNumbers" ∧
    generate_operation_name "get_HTTPStatus" = "GetHTTPStatus" ∧
    ∀ s : String, generate_operation_name s = specOperationName s := by
  refine ⟨rfl, rfl, rfl, fun s => ?_⟩
  rw [generate_operation_name, specOperationName]
  exact congrArg String.mk (specCapitalizeWords_eq_split s.data).1.symm

/-! ## C9 — entity decoding -/

/-- C9: the chained-replace decoder of the generated runtime does not
equal a single-pass decoder of the five standard XML entities: on the
input `&amp;quot;` it produces a double-decoded quote character where
the reference single-pass decoder (and the claim) requires the text
`&quot;`. -/
theorem decode_entities_code_bug_c9 :
    decode_xml_content "&amp;quot;" = "\"" ∧
    singlePassDecode "&amp;quot;" = "&quot;" ∧
    decode_xml_content "&amp;quot;" ≠ singlePassDecode "&amp;quot;" :=
  ⟨rfl, rfl, by decide⟩

/-! ## C2 — fault envelope construction -/

/-- C2 (counterexample): the claim requires XML-significant characters
of the message to be entity-encoded in the faultstring.  For the
message `a<b` the generated fault document does not contain the encoded
text `a&lt;b`; it contains the raw text `a<b` between the faultstring
tags, so the document is not well-formed XML. -/
theorem fault_escaping_counterexample_c2 :
    containsSub (create_soap_fault "a<b").data "a&lt;b".data = false ∧
    containsSub (create_soap_fault "a<b").data "<faultstring>a<b</faultstring>".data = true := by
  constructor
  · decide
  · decide

/-- `create_soap_fault` from src/soap/faults.rs: the library stub
ignores its error argument entirely and always returns the same
constant fault document, whose faultstring is the literal
`Not implemented`. -/
def faults_create_soap_fault (_error : String) : String :=
  "<?xml version=\"1.0\" encoding=\"UTF-8\"?>\n<soap:Envelope xmlns:soap=\"http://schemas.xmlsoap.org/soap/envelope/\">\n    <soap:Body>\n        <soap:Fault>\n            <faultcode>Server</faultcode>\n            <faultstring>Not implemented</faultstring>\n        </soap:Fault>\n    </soap:Body>\n</soap:Envelope>"

/-- C2 (amended): both cited implementations carry the literal
faultcode `Server`, and neither entity-encodes anything.  The generated
runtime's `create_soap_fault` (src/lib.rs) inserts the error message
verbatim between the faultstring tags, with no entity encoding at all
(so the document is well-formed only when the message itself contains
no XML-significant characters); the library codec's `create_soap_fault`
(src/soap/faults.rs) ignores the message entirely and always returns
the same constant document whose faultstring is the literal
`Not implemented`. -/
theorem fault_verbatim_c2 (msg : String) :
    (create_soap_fault msg = faultDocOpen ++ msg ++ faultDocClose ∧
     containsSub faultDocOpen.data "<faultcode>Server</faultcode>".data = true ∧
     ("<faultstring>".data).isSuffixOf faultDocOpen.data = true ∧
     ("</faultstring>".data).isPrefixOf faultDocClose.data = true) ∧
    (faults_create_soap_fault msg
       = "<?xml version=\"1.0\" encoding=\"UTF-8\"?>\n<soap:Envelope xmlns:soap=\"http://schemas.xmlsoap.org/soap/envelope/\">\n    <soap:Body>\n        <soap:Fault>\n            <faultcode>Server</faultcode>\n            <faultstring>Not implemented</faultstring>\n        </soap:Fault>\n    </soap:Body>\n</soap:Envelope>" ∧
     containsSub (faults_create_soap_fault msg).data
       "<faultstring>Not implemented</faultstring>".data = true ∧
     containsSub (faults_create_soap_fault msg).data
       "<faultcode>Server</faultcode>".data = true) := by
  have hconst : faults_create_soap_fault msg
      = "<?xml version=\"1.0\" encoding=\"UTF-8\"?>\n<soap:Envelope xmlns:soap=\"http://schemas.xmlsoap.org/soap/envelope/\">\n    <soap:Body>\n        <soap:Fault>\n            <faultcode>Server</faultcode>\n            <faultstring>Not implemented</faultstring>\n        </soap:Fault>\n    </soap:Body>\n</soap:Envelope>" := rfl
  refine ⟨⟨rfl, by decide, by decide, by decide⟩, hconst, ?_, ?_⟩
  · rw [hconst]
    decide
  · rw [hconst]
    decide

/-! ## C4 — empty Body is a malformed envelope -/

def envEmptyBody : String :=
  "<?xml version=\"1.0\" encoding=\"UTF-8\"?>\n"
    ++ "<soap:Envelope xmlns:soap=\"http://schemas.xmlsoap.org/soap/envelope/\">\n"
    ++ "    <soap:Body></soap:Body>\n</soap:Envelope>"

/-- C4: an envelope whose Body is present but empty is rejected by
both envelope parsers with a malformed-envelope error — the generated
parser reports an invalid Body structure, the library codec reports
that no operation was found — and neither parser yields a successful
parse (both embeddings are total functions, so no panic is possible on
this input). -/
theorem empty_body_malformed_c4 :
    parse_soap_envelope envEmptyBody = .error "Invalid SOAP Body structure" ∧
    parse_soap_request envEmptyBody = .error "No operation found in SOAP body" :=
  ⟨rfl, rfl⟩

/-! ## C6 — operation name extraction: local name versus qualified name -/

theorem dropWhile_none (p : Char → Bool) (l : List Char) (h : ∀ x ∈ l, p x = false) :
    l.dropWhile p = l := by
  cases l with
  | nil => rfl
  | cons x xs =>
    rw [List.dropWhile_cons, h x (List.mem_cons_self _ _)]
    simp

theorem trimRightList_append (a b : List Char) :
    trimRightList (a ++ b)
      = if trimRightList b = [] then trimRightList a else a ++ trimRightList b := by
  unfold trimRightList
  rw [List.reverse_append, List.dropWhile_append]
  by_cases h : (b.reverse.dropWhile isWs).isEmpty = true
  · rw [if_pos h]
    rw [List.isEmpty_iff] at h
    rw [if_pos (by rw [h]; rfl)]
  · rw [if_neg h]
    rw [List.isEmpty_iff] at h
    rw [if_neg (fun hc => h (by rwa [List.reverse_eq_nil_iff] at hc))]
    rw [List.reverse_append, List.reverse_reverse]

theorem trimRightList_concat_not_ws (l : List Char) (c : Char) (h : isWs c = false) :
    trimRightList (l ++ [c]) = l ++ [c] := by
  unfold trimRightList
  rw [List.reverse_append, List.reverse_singleton, List.singleton_append,
    List.dropWhile_cons, h]
  simp

theorem trimList_tag (mid R : List Char) :
    trimList (('<' :: mid) ++ '>' :: R) = ('<' :: mid) ++ '>' :: trimRightList R := by
  unfold trimList trimLeftList
  rw [List.cons_append, List.dropWhile_cons]
  have h1 : isWs '<' = false := rfl
  rw [h1]
  simp only [Bool.false_eq_true, if_false]
  have hsplit : '<' :: (mid ++ '>' :: R) = ('<' :: mid ++ ['>']) ++ R := by simp
  rw [hsplit, trimRightList_append]
  have hend : trimRightList ('<' :: mid ++ ['>']) = '<' :: mid ++ ['>'] := by
    have := trimRightList_concat_not_ws ('<' :: mid) '>' rfl
    simpa using this
  by_cases h : trimRightList R = []
  · rw [if_pos h, hend, h]
  · rw [if_neg h]; simp

theorem splitOnChar_of_not_mem (c : Char) (b : List Char) (hb : c ∉ b) :
    splitOnChar c b = [b] := by
  induction b with
  | nil => rfl
  | cons x xs ih =>
    have hx : x ≠ c := fun h => hb (h ▸ List.mem_cons_self _ _)
    rw [splitOnChar, ih fun h => hb (List.mem_cons_of_mem _ h)]
    simp [hx]

theorem splitOnChar_length_ge_two (c : Char) (cs : List Char) (h : c ∈ cs) :
    2 ≤ (splitOnChar c cs).length := by
  induction cs with
  | nil => simp at h
  | cons x xs ih =>
    rw [splitOnChar]
    rcases hs : splitOnChar c xs with _ | ⟨h1, t1⟩
    · exact absurd hs (splitOnChar_ne_nil _ _)
    · dsimp only
      by_cases hx : x = c
      · simp [hx]
      · have hmem : c ∈ xs := by
          rcases List.mem_cons.mp h with h2 | h2
          · exact absurd h2.symm hx
          · exact h2
        have hl := ih hmem
        rw [hs] at hl
        rw [if_neg hx]
        simpa using hl

theorem splitOnChar_append_getLast (c : Char) (a b : List Char) (hb : c ∉ b) :
    (splitOnChar c (a ++ c :: b)).getLast? = some b := by
  induction a with
  | nil =>
    rw [List.nil_append, splitOnChar, splitOnChar_of_not_mem c b hb]
    simp
  | cons x xs ih =>
    rw [List.cons_append, splitOnChar]
    rcases hs : splitOnChar c (xs ++ c :: b) with _ | ⟨h1, t1⟩
    · exact absurd hs (splitOnChar_ne_nil _ _)
    · have hlen : 2 ≤ (splitOnChar c (xs ++ c :: b)).length :=
        splitOnChar_length_ge_two c _ (by simp)
      rw [hs] at hlen
      rw [hs] at ih
      dsimp only
      rcases t1 with _ | ⟨t2, ts⟩
      · simp at hlen
      · by_cases hx : x = c
        · rw [if_pos hx, List.getLast?_cons_cons]
          exact ih
        · rw [if_neg hx, List.getLast?_cons_cons]
          rw [List.getLast?_cons_cons] at ih
          exact ih

/-- Characters allowed in the modelled XML names: alphanumeric. -/
theorem alphanum_facts (x : Char) (h : x.isAlphanum = true) :
    x ≠ '>' ∧ x ≠ '<' ∧ x ≠ ':' ∧ x ≠ '/' ∧ x ≠ '?' ∧ x ≠ '&' ∧ x ≠ '"' ∧ x ≠ '\'' ∧
    isWs x = false := by
  refine ⟨?_, ?_, ?_, ?_, ?_, ?_, ?_, ?_, ?_⟩ <;> first
  | (intro hc; subst hc; exact absurd h (by decide))
  | (unfold isWs
     rcases hsp : decide (x = ' ') with _ | _
     · rcases ht : decide (x = '\t') with _ | _
       · rcases hn : decide (x = '\n') with _ | _
         · rcases hr : decide (x = '\r') with _ | _
           · simp [of_decide_eq_true, hsp, ht, hn, hr]
           · exact absurd h (by rw [of_decide_eq_true hr]; decide)
         · exact absurd h (by rw [of_decide_eq_true hn]; decide)
       · exact absurd h (by rw [of_decide_eq_true ht]; decide)
     · exact absurd h (by rw [of_decide_eq_true hsp]; decide))

/-- The general extraction behaviour of the generated
`extract_first_element_name`: the qualified first tag has its prefix
stripped and its local name returned. -/
theorem extract_first_element_name_prefixed (P L R : List Char)
    (hP : ∀ c ∈ P, c.isAlphanum = true)
    (hL : ∀ c ∈ L, c.isAlphanum = true) (hLne : L ≠ []) :
    extract_first_element_name ⟨'<' :: P ++ ':' :: L ++ '>' :: R⟩ = .ok ⟨L⟩ := by
  have hmid : '<' :: P ++ ':' :: L ++ '>' :: R
      = '<' :: (P ++ ':' :: L) ++ '>' :: R := by simp
  have hmidWs : ∀ c ∈ P ++ ':' :: L, isWs c = false := by
    intro c hc
    rcases List.mem_append.mp hc with h | h
    · exact (alphanum_facts c (hP c h)).2.2.2.2.2.2.2.2
    · rcases List.mem_cons.mp h with h | h
      · rw [h]; rfl
      · exact (alphanum_facts c (hL c h)).2.2.2.2.2.2.2.2
  have hmidGt : ∀ c ∈ P ++ ':' :: L, decide (c = '>') = false := by
    intro c hc
    rcases List.mem_append.mp hc with h | h
    · simp [(alphanum_facts c (hP c h)).1]
    · rcases List.mem_cons.mp h with h | h
      · rw [h]; decide
      · simp [(alphanum_facts c (hL c h)).1]
  rw [extract_first_element_name.eq_def]
  rw [show (⟨'<' :: P ++ ':' :: L ++ '>' :: R⟩ : String).data
      = ('<' :: (P ++ ':' :: L)) ++ '>' :: R from by simp]
  rw [trimList_tag]
  simp only [List.cons_append]
  rw [findIdx?_append_stop (fun c => decide (c = '>')) (P ++ ':' :: L) '>'
    (trimRightList R) hmidGt (by decide)]
  dsimp only
  rw [List.take_left]
  have hlast : ¬ ((P ++ ':' :: L).getLast? = some '/') := by
    intro hc
    have hm := List.mem_of_mem_getLast? hc
    rcases List.mem_append.mp hm with h | h
    · exact (alphanum_facts _ (hP _ h)).2.2.2.1 rfl
    · rcases List.mem_cons.mp h with h | h
      · exact absurd h.symm (by decide)
      · exact (alphanum_facts _ (hL _ h)).2.2.2.1 rfl
  rw [if_neg hlast]
  have htok : firstToken (P ++ ':' :: L) = P ++ ':' :: L := by
    unfold firstToken
    rw [dropWhile_none _ _ hmidWs,
      takeWhile_all (fun c => !isWs c) _ (fun c hc => by simp [hmidWs c hc])]
    rw [if_neg (by simp)]
  rw [htok]
  have hcontains : (P ++ ':' :: L).contains ':' = true := by
    rw [List.elem_iff]
    exact List.mem_append.mpr (Or.inr (List.mem_cons_self _ _))
  rw [if_pos hcontains]
  unfold lastSegment
  rw [splitOnChar_append_getLast ':' P L
    (fun h => (alphanum_facts _ (hL _ h)).2.2.1 rfl)]
  rfl

def envPrefixed : String :=
  "<soap:Envelope xmlns:soap=\"http://schemas.xmlsoap.org/soap/envelope/\">"
    ++ "<soap:Body><tns:Add><a>1</a></tns:Add></soap:Body></soap:Envelope>"

/-- C6 (counterexample): the claim requires the envelope parser to
strip any namespace prefix from the operation element, so a body whose
first child is `<tns:Add>` must yield operation name `Add`.  The
library codec parser (`parse_soap_request` in src/soap/envelope.rs)
returns the qualified name `tns:Add` with the prefix kept. -/
theorem opname_prefix_counterexample_c6 :
    (parse_soap_request envPrefixed).map (fun r => r.operation) = .ok "tns:Add" ∧
    ("tns:Add" : String) ≠ "Add" :=
  ⟨rfl, by decide⟩

/-- C6 (amended): the generated envelope parser
(`extract_first_element_name`, used by `parse_soap_envelope`) returns
the local name of the first child element with any namespace prefix
stripped, and the absence of a first element is a malformed-envelope
error; the library codec parser (`parse_soap_request`) instead returns
the qualified name with the prefix kept. -/
theorem local_name_amended_c6 (P L R : List Char)
    (hP : ∀ c ∈ P, c.isAlphanum = true)
    (hL : ∀ c ∈ L, c.isAlphanum = true) (hLne : L ≠ []) :
    extract_first_element_name ⟨'<' :: P ++ ':' :: L ++ '>' :: R⟩ = .ok ⟨L⟩ ∧
    extract_first_element_name "" = .error "No XML element found" ∧
    (parse_soap_envelope envPrefixed).map (fun r => r.operation) = .ok "Add" ∧
    (parse_soap_request envPrefixed).map (fun r => r.operation) = .ok "tns:Add" :=
  ⟨extract_first_element_name_prefixed P L R hP hL hLne, rfl, rfl, rfl⟩

/-- C6 (witness): the amended statement applied to the tag
`<tns:Add>` followed by nested content. -/
theorem local_name_amended_c6_witness :
    extract_first_element_name ⟨'<' :: "tns".data ++ ':' :: "Add".data ++ '>' :: "<a>1</a></tns:Add>".data⟩
      = .ok ⟨"Add".data⟩ ∧
    extract_first_element_name "" = .error "No XML element found" ∧
    (parse_soap_envelope envPrefixed).map (fun r => r.operation) = .ok "Add" ∧
    (parse_soap_request envPrefixed).map (fun r => r.operation) = .ok "tns:Add" :=
  local_name_amended_c6 "tns".data "Add".data "<a>1</a></tns:Add>".data
    (by decide) (by decide) (by decide)

/-! ## C3 — response round trip through the envelope codec

The development below evaluates the reader model symbolically on the
response envelope built by `create_soap_response`, for arbitrary
operation names, namespaces, serialized root names and field lists
drawn from a safe alphabet. -/

theorem tokenizeAux_irrel (f1 : Nat) :
    ∀ (f2 : Nat) (cs : List Char) (st : List String), cs.length < f1 → cs.length < f2 →
      tokenizeAux f1 cs st = tokenizeAux f2 cs st := by
  induction f1 with
  | zero => intro f2 cs st h1 _; exact absurd h1 (Nat.not_lt_zero _)
  | succ f1 ih =>
    intro f2 cs st h1 h2
    cases f2 with
    | zero => exact absurd h2 (Nat.not_lt_zero _)
    | succ f2 =>
      cases cs with
      | nil => rfl
      | cons c rest =>
        have hr1 : rest.length < f1 := by
          simp only [List.length_cons] at h1; omega
        have hr2 : rest.length < f2 := by
          simp only [List.length_cons] at h2; omega
        simp only [tokenizeAux]
        by_cases hc : c = '<'
        · rw [if_pos hc, if_pos hc]
          by_cases hq : rest.head? = some '?'
          · rw [if_pos hq, if_pos hq]
            rcases hf : findSub (rest.drop 1) "?>".data with _ | i
            · rfl
            · have hlen : ((rest.drop 1).drop (i + 2)).length ≤ rest.length := by
                simp only [List.length_drop]; omega
              dsimp only
              rw [ih f2 ((rest.drop 1).drop (i + 2)) st (by omega) (by omega)]
          · rw [if_neg hq, if_neg hq]
            by_cases hs : rest.head? = some '/'
            · rw [if_pos hs, if_pos hs]
              have hd1 : (((rest.drop 1).dropWhile (fun c => c ≠ '>')).drop 1).length
                  ≤ rest.length := by
                have ha := length_dropWhile_le (fun c => decide (c ≠ '>')) (rest.drop 1)
                simp only [List.length_drop] at *
                omega
              rcases st with _ | ⟨top, st2⟩
              · rfl
              · dsimp only
                by_cases htop : top
                    = (⟨(rest.drop 1).takeWhile (fun c => c ≠ '>')⟩ : String)
                · rw [if_pos htop, if_pos htop]
                  rw [ih f2 (((rest.drop 1).dropWhile (fun c => c ≠ '>')).drop 1) st2
                    (by omega) (by omega)]
                · rw [if_neg htop, if_neg htop]
            · rw [if_neg hs, if_neg hs]
              have hd2 : ((rest.dropWhile (fun c => c ≠ '>')).drop 1).length
                  ≤ rest.length := by
                have ha := length_dropWhile_le (fun c => decide (c ≠ '>')) rest
                simp only [List.length_drop] at *
                omega
              by_cases hg : (rest.takeWhile (fun c => c ≠ '>')).getLast? = some '/'
              · rw [if_pos hg, if_pos hg,
                  ih f2 ((rest.dropWhile (fun c => c ≠ '>')).drop 1) st
                    (by omega) (by omega)]
              · rw [if_neg hg, if_neg hg,
                  ih f2 ((rest.dropWhile (fun c => c ≠ '>')).drop 1) _
                    (by omega) (by omega)]
        · rw [if_neg hc, if_neg hc]
          have hd3 : ((c :: rest).dropWhile (fun x => x ≠ '<')).length ≤ rest.length := by
            rw [List.dropWhile_cons]
            have hcb : (decide (c ≠ '<')) = true := by simp [hc]
            rw [hcb]
            simpa using length_dropWhile_le (fun x => decide (x ≠ '<')) rest
          by_cases ht : trimList ((c :: rest).takeWhile (fun x => x ≠ '<')) = []
          · rw [if_pos ht, if_pos ht,
              ih f2 ((c :: rest).dropWhile (fun x => x ≠ '<')) st (by omega) (by omega)]
          · rw [if_neg ht, if_neg ht,
              ih f2 ((c :: rest).dropWhile (fun x => x ≠ '<')) st (by omega) (by omega)]

theorem head?_append_of_ne_nil (a b : List Char) (h : a ≠ []) :
    (a ++ b).head? = a.head? := by
  cases a with
  | nil => exact absurd rfl h
  | cons x xs => rfl

theorem isWs_char_cases (c : Char) (h : isWs c = true) :
    c = ' ' ∨ c = '\t' ∨ c = '\n' ∨ c = '\r' := by
  unfold isWs at h
  simp only [Bool.or_eq_true, decide_eq_true_eq] at h
  tauto

theorem isWs_ne_lt (c : Char) (h : isWs c = true) : c ≠ '<' := by
  rcases isWs_char_cases c h with h1 | h1 | h1 | h1 <;> (subst h1; decide)

theorem trimList_all_ws (l : List Char) (h : ∀ c ∈ l, isWs c = true) :
    trimList l = [] := by
  unfold trimList trimLeftList
  rw [dropWhile_all _ _ h]
  rfl

theorem trimRightList_no_ws (l : List Char) (h : ∀ c ∈ l, isWs c = false) :
    trimRightList l = l := by
  unfold trimRightList
  rw [dropWhile_none _ _ (fun c hc => h c (List.mem_reverse.mp hc)), List.reverse_reverse]

theorem trimList_no_ws (l : List Char) (h : ∀ c ∈ l, isWs c = false) :
    trimList l = l := by
  unfold trimList trimLeftList
  rw [dropWhile_none _ _ h]
  exact trimRightList_no_ws l h

/-- Reading one start tag with a generic fuel bound: the tag name is
pushed onto the open-element stack. -/
theorem tokenizeAux_startTag (f : Nat) (tagc rest : List Char) (st : List String)
    (hfu : rest.length < f) (hne : tagc ≠ [])
    (hq : tagc.head? ≠ some '?') (hsl : tagc.head? ≠ some '/')
    (hgt : ∀ x ∈ tagc, x ≠ '>') (hlast : tagc.getLast? ≠ some '/') :
    tokenizeAux (f + 1) (('<' :: tagc) ++ '>' :: rest) st
      = .start (parseTag tagc).1 (parseTag tagc).2
          :: tokList rest ((parseTag tagc).1 :: st) := by
  have hsh : ('<' :: tagc) ++ '>' :: rest = '<' :: (tagc ++ '>' :: rest) := by simp
  rw [hsh]
  simp only [tokenizeAux]
  rw [if_pos trivial]
  rw [head?_append_of_ne_nil tagc ('>' :: rest) hne]
  rw [if_neg hq, if_neg hsl]
  rw [takeWhile_append_stop (fun c => decide (c ≠ '>')) tagc '>' rest
    (fun x hx => by simp [hgt x hx]) (by decide)]
  rw [dropWhile_append_stop (fun c => decide (c ≠ '>')) tagc '>' rest
    (fun x hx => by simp [hgt x hx]) (by decide)]
  have hdrop : ('>' :: rest).drop 1 = rest := rfl
  rw [hdrop]
  rw [if_neg hlast]
  rw [tokenizeAux_irrel f (rest.length + 1) rest ((parseTag tagc).1 :: st)
    hfu (by omega)]
  rfl

/-- Reading one start tag: `<tagc>` produces one start event and opens
the element. -/
theorem tokList_startTag (tagc rest : List Char) (st : List String) (hne : tagc ≠ [])
    (hq : tagc.head? ≠ some '?') (hsl : tagc.head? ≠ some '/')
    (hgt : ∀ x ∈ tagc, x ≠ '>') (hlast : tagc.getLast? ≠ some '/') :
    tokList (('<' :: tagc) ++ '>' :: rest) st
      = .start (parseTag tagc).1 (parseTag tagc).2
          :: tokList rest ((parseTag tagc).1 :: st) := by
  unfold tokList
  exact tokenizeAux_startTag (('<' :: tagc) ++ '>' :: rest).length tagc rest st
    (by simp [List.length_append]; omega) hne hq hsl hgt hlast

/-- Reading one end tag that matches the innermost open element, with a
generic fuel bound: one close event, and the element is popped. -/
theorem tokenizeAux_closeTag (f : Nat) (nm rest : List Char) (st : List String)
    (hfu : rest.length < f) (hgt : ∀ x ∈ nm, x ≠ '>') :
    tokenizeAux (f + 1) (('<' :: '/' :: nm) ++ '>' :: rest) ((⟨nm⟩ : String) :: st)
      = .close ⟨nm⟩ :: tokList rest st := by
  have hsh : ('<' :: '/' :: nm) ++ '>' :: rest = '<' :: ('/' :: (nm ++ '>' :: rest)) := by simp
  rw [hsh]
  simp only [tokenizeAux]
  rw [if_pos trivial]
  rw [if_neg (show ('/' :: (nm ++ '>' :: rest)).head? ≠ some '?' by simp)]
  rw [if_pos (show ('/' :: (nm ++ '>' :: rest)).head? = some '/' from rfl)]
  have hdrop1 : ('/' :: (nm ++ '>' :: rest)).drop 1 = nm ++ '>' :: rest := rfl
  rw [hdrop1]
  rw [takeWhile_append_stop (fun c => decide (c ≠ '>')) nm '>' rest
    (fun x hx => by simp [hgt x hx]) (by decide)]
  rw [dropWhile_append_stop (fun c => decide (c ≠ '>')) nm '>' rest
    (fun x hx => by simp [hgt x hx]) (by decide)]
  have hdrop : ('>' :: rest).drop 1 = rest := rfl
  rw [hdrop]
  rw [if_pos rfl]
  rw [tokenizeAux_irrel f (rest.length + 1) rest st hfu (by omega)]
  rfl

/-- Reading one matching end tag: `</nm>` produces one close event and
pops the element. -/
theorem tokList_closeTag (nm rest : List Char) (st : List String)
    (hgt : ∀ x ∈ nm, x ≠ '>') :
    tokList (('<' :: '/' :: nm) ++ '>' :: rest) ((⟨nm⟩ : String) :: st)
      = .close ⟨nm⟩ :: tokList rest st := by
  unfold tokList
  exact tokenizeAux_closeTag (('<' :: '/' :: nm) ++ '>' :: rest).length nm rest st
    (by simp [List.length_append]; omega) hgt

/-- Reading an end tag that does not match the innermost open element:
the reader stops with the mismatch error. -/
theorem tokenizeAux_closeTag_mismatch (f : Nat) (nm rest : List Char) (top : String)
    (st : List String) (hgt : ∀ x ∈ nm, x ≠ '>') (hne : top ≠ (⟨nm⟩ : String)) :
    tokenizeAux (f + 1) (('<' :: '/' :: nm) ++ '>' :: rest) (top :: st)
      = [.errEnd top ⟨nm⟩] := by
  have hsh : ('<' :: '/' :: nm) ++ '>' :: rest = '<' :: ('/' :: (nm ++ '>' :: rest)) := by simp
  rw [hsh]
  simp only [tokenizeAux]
  rw [if_pos trivial]
  rw [if_neg (show ('/' :: (nm ++ '>' :: rest)).head? ≠ some '?' by simp)]
  rw [if_pos (show ('/' :: (nm ++ '>' :: rest)).head? = some '/' from rfl)]
  have hdrop1 : ('/' :: (nm ++ '>' :: rest)).drop 1 = nm ++ '>' :: rest := rfl
  rw [hdrop1]
  rw [takeWhile_append_stop (fun c => decide (c ≠ '>')) nm '>' rest
    (fun x hx => by simp [hgt x hx]) (by decide)]
  rw [if_neg hne]

/-- Reading a mismatched end tag at the whole-input fuel. -/
theorem tokList_closeTag_mismatch (nm rest : List Char) (top : String)
    (st : List String) (hgt : ∀ x ∈ nm, x ≠ '>') (hne : top ≠ (⟨nm⟩ : String)) :
    tokList (('<' :: '/' :: nm) ++ '>' :: rest) (top :: st) = [.errEnd top ⟨nm⟩] := by
  unfold tokList
  rw [show (('<' :: '/' :: nm) ++ '>' :: rest).length
      = (('<' :: '/' :: nm) ++ '>' :: rest).length - 1 + 1 from by
    simp [List.length_append]]
  exact tokenizeAux_closeTag_mismatch _ nm rest top st hgt hne

/-- Reading a text run with a generic fuel bound. -/
theorem tokenizeAux_text (f : Nat) (txt rest : List Char) (st : List String)
    (hfu : rest.length < f) (hne : txt ≠ [])
    (hlt : ∀ x ∈ txt, x ≠ '<') (hrest : rest.head? = some '<' ∨ rest = []) :
    tokenizeAux (f + 1) (txt ++ rest) st
      = (if trimList txt = [] then tokList rest st
         else .text ⟨trimList txt⟩ :: tokList rest st) := by
  rcases txt with _ | ⟨t0, t1⟩
  · exact absurd rfl hne
  · have ht0 : t0 ≠ '<' := hlt t0 (List.mem_cons_self _ _)
    rw [List.cons_append]
    simp only [tokenizeAux]
    rw [if_neg ht0]
    have htake : ((t0 :: t1) ++ rest).takeWhile (fun x => x ≠ '<') = t0 :: t1 := by
      rcases hrest with h | h
      · rcases rest with _ | ⟨r0, rr⟩
        · simp at h
        · simp only [List.head?_cons, Option.some.injEq] at h
          subst h
          exact takeWhile_append_stop (fun x => decide (x ≠ '<')) (t0 :: t1) '<' rr
            (fun x hx => by simp [hlt x hx]) (by decide)
      · subst h
        rw [List.append_nil]
        exact takeWhile_all _ _ (fun x hx => by simp [hlt x hx])
    have hdrop : ((t0 :: t1) ++ rest).dropWhile (fun x => x ≠ '<') = rest := by
      rcases hrest with h | h
      · rcases rest with _ | ⟨r0, rr⟩
        · simp at h
        · simp only [List.head?_cons, Option.some.injEq] at h
          subst h
          exact dropWhile_append_stop (fun x => decide (x ≠ '<')) (t0 :: t1) '<' rr
            (fun x hx => by simp [hlt x hx]) (by decide)
      · subst h
        rw [List.append_nil]
        exact dropWhile_all _ _ (fun x hx => by simp [hlt x hx])
    rw [List.cons_append] at htake hdrop
    rw [htake, hdrop]
    by_cases htr : trimList (t0 :: t1) = []
    · rw [if_pos htr, if_pos htr]
      rw [tokenizeAux_irrel f (rest.length + 1) rest st hfu (by omega)]
      rfl
    · rw [if_neg htr, if_neg htr]
      rw [tokenizeAux_irrel f (rest.length + 1) rest st hfu (by omega)]
      rfl

/-- Reading a text run up to the next tag. -/
theorem tokList_text (txt rest : List Char) (st : List String) (hne : txt ≠ [])
    (hlt : ∀ x ∈ txt, x ≠ '<') (hrest : rest.head? = some '<' ∨ rest = []) :
    tokList (txt ++ rest) st
      = (if trimList txt = [] then tokList rest st
         else .text ⟨trimList txt⟩ :: tokList rest st) := by
  unfold tokList
  rcases txt with _ | ⟨t0, t1⟩
  · exact absurd rfl hne
  · exact tokenizeAux_text ((t0 :: t1) ++ rest).length (t0 :: t1) rest st
      (by simp [List.length_append]; omega) hne hlt hrest

/-- Reading the fixed XML declaration emitted by the codec templates. -/
theorem tokenizeAux_decl (f : Nat) (rest : List Char) (st : List String)
    (hfu : rest.length < f) :
    tokenizeAux (f + 1) ("<?xml version=\"1.0\" encoding=\"UTF-8\"?>".data ++ rest) st
      = .decl :: tokList rest st := by
  have hsh : "<?xml version=\"1.0\" encoding=\"UTF-8\"?>".data ++ rest
      = '<' :: ('?' :: (("xml version=\"1.0\" encoding=\"UTF-8\"".data
          ++ ("?>".data ++ rest)))) := by
    show ('<' :: '?' :: "xml version=\"1.0\" encoding=\"UTF-8\"".data ++ "?>".data) ++ rest = _
    simp
  rw [hsh]
  simp only [tokenizeAux]
  rw [if_pos trivial]
  rw [if_pos (show ('?' :: ("xml version=\"1.0\" encoding=\"UTF-8\"".data
      ++ ("?>".data ++ rest))).head? = some '?' from rfl)]
  have hdrop1 : ('?' :: ("xml version=\"1.0\" encoding=\"UTF-8\"".data
      ++ ("?>".data ++ rest))).drop 1
      = "xml version=\"1.0\" encoding=\"UTF-8\"".data ++ ("?>".data ++ rest) := rfl
  rw [hdrop1]
  rw [findSub_append_head "xml version=\"1.0\" encoding=\"UTF-8\"".data
    ("?>".data ++ rest) "?>".data '?' rfl (by decide)
    (List.isPrefixOf_iff_prefix.mpr (List.prefix_append _ _))]
  dsimp only
  have hlen2 : "xml version=\"1.0\" encoding=\"UTF-8\"".data.length + 2
      = ("xml version=\"1.0\" encoding=\"UTF-8\"".data ++ "?>".data).length := by
    simp [List.length_append]
  have hre : "xml version=\"1.0\" encoding=\"UTF-8\"".data ++ ("?>".data ++ rest)
      = ("xml version=\"1.0\" encoding=\"UTF-8\"".data ++ "?>".data) ++ rest := by simp
  rw [hlen2, hre, List.drop_left]
  rw [tokenizeAux_irrel f (rest.length + 1) rest st hfu (by omega)]
  rfl

theorem tokList_decl (rest : List Char) (st : List String) :
    tokList ("<?xml version=\"1.0\" encoding=\"UTF-8\"?>".data ++ rest) st
      = .decl :: tokList rest st := by
  unfold tokList
  have hl : ("<?xml version=\"1.0\" encoding=\"UTF-8\"?>".data).length = 38 := rfl
  exact tokenizeAux_decl
    ("<?xml version=\"1.0\" encoding=\"UTF-8\"?>".data ++ rest).length
    rest st (by rw [List.length_append, hl]; omega)

/-- Whitespace-only text between tags is dropped by the reader. -/
theorem tokList_ws (txt rest : List Char) (st : List String) (hne : txt ≠ [])
    (hws : ∀ x ∈ txt, isWs x = true) (hrest : rest.head? = some '<' ∨ rest = []) :
    tokList (txt ++ rest) st = tokList rest st := by
  rw [tokList_text txt rest st hne (fun x hx => isWs_ne_lt x (hws x hx)) hrest]
  rw [if_pos (trimList_all_ws txt hws)]

/-- A run of alphanumeric text becomes one text event, untrimmed. -/
theorem tokList_textc (txt rest : List Char) (st : List String) (hne : txt ≠ [])
    (hal : ∀ x ∈ txt, x.isAlphanum = true) (hrest : rest.head? = some '<' ∨ rest = []) :
    tokList (txt ++ rest) st = .text ⟨txt⟩ :: tokList rest st := by
  have hnw : ∀ x ∈ txt, isWs x = false :=
    fun x hx => (alphanum_facts x (hal x hx)).2.2.2.2.2.2.2.2
  rw [tokList_text txt rest st hne
    (fun x hx => (alphanum_facts x (hal x hx)).2.1) hrest]
  rw [trimList_no_ws txt hnw]
  rw [if_neg hne]

/-- Right-nested concatenation of segments, used to present a document
to the tokenizer one lexical unit at a time. -/
def catList : List (List Char) → List Char
  | [] => []
  | x :: xs => x ++ catList xs

theorem catList_cons (x : List Char) (xs : List (List Char)) :
    catList (x :: xs) = x ++ catList xs := rfl

theorem seg_tag (tag r : List Char) :
    ('<' :: tag ++ ['>']) ++ r = ('<' :: tag) ++ '>' :: r := by simp

theorem seg_closeTag (tag r : List Char) :
    ('<' :: '/' :: tag ++ ['>']) ++ r = ('<' :: '/' :: tag) ++ '>' :: r := by simp

/-- The inside of the `soap:Envelope` start tag of the response
template (name, both namespace attribute declarations). -/
def responseEnvTag (ns : String) : List Char :=
  "soap:Envelope xmlns:soap=\"http://schemas.xmlsoap.org/soap/envelope/\"\n               xmlns:tns=\"".data
    ++ ns.data ++ ['"']

/-- The qualified response operation element name. -/
def respOpTag (op : String) : List Char :=
  "tns:".data ++ op.data ++ "Response".data

/-- The events the reader produces for the serialised fields of a flat
struct. -/
def fieldEvents (fields : List (String × String)) : List XEvent :=
  fields.flatMap (fun kv =>
    if kv.2 = "" then [.start kv.1 [], .close kv.1]
    else [.start kv.1 [], .text kv.2, .close kv.1])

/-- The canonical XML rendering of a flat field list. -/
def fieldsXmlStr (fields : List (String × String)) : String :=
  concatStrs (fields.map (fun kv => "<" ++ kv.1 ++ ">" ++ kv.2 ++ "</" ++ kv.1 ++ ">"))

theorem strEta (s : String) : (⟨s.data⟩ : String) = s := rfl

theorem str_ne_empty_of_data (s : String) (h : s.data ≠ []) : s ≠ "" := by
  intro hc
  rw [hc] at h
  exact h rfl

theorem append_ne_empty_right (a b : String) (h : b ≠ "") : a ++ b ≠ "" := by
  apply str_ne_empty_of_data
  rw [String.data_append]
  intro hc
  exact h (by
    have := (List.append_eq_nil.mp hc).2
    exact String.ext this)

theorem parseTag_no_ws (tagc : List Char) (h : ∀ c ∈ tagc, isWs c = false) :
    parseTag tagc = (⟨tagc⟩, []) := by
  unfold parseTag
  rw [takeWhile_all (fun c => !isWs c) tagc (fun c hc => by simp [h c hc])]
  rw [dropWhile_all (fun c => !isWs c) tagc (fun c hc => by simp [h c hc])]
  rfl

theorem xmlEscape_data (l : List Char) (h : ∀ c ∈ l, c.isAlphanum = true) :
    (l.flatMap (fun c =>
      if c = '&' then "&amp;".data
      else if c = '<' then "&lt;".data
      else if c = '>' then "&gt;".data
      else if c = '"' then "&quot;".data
      else if c = '\'' then "&apos;".data
      else [c])) = l := by
  induction l with
  | nil => rfl
  | cons c t ih =>
    rw [List.flatMap_cons]
    have hc := alphanum_facts c (h c (List.mem_cons_self _ _))
    rw [if_neg hc.2.2.2.2.2.1, if_neg hc.2.1, if_neg hc.1, if_neg hc.2.2.2.2.2.2.1,
      if_neg hc.2.2.2.2.2.2.2.1]
    rw [ih (fun x hx => h x (List.mem_cons_of_mem _ hx))]
    rfl

theorem xmlEscape_id (v : String) (h : ∀ c ∈ v.data, c.isAlphanum = true) :
    xmlEscape v = v := by
  unfold xmlEscape
  exact String.ext (xmlEscape_data v.data h)

theorem singlePassDecodeAux_no_amp (fuel : Nat) :
    ∀ cs : List Char, (∀ c ∈ cs, c ≠ '&') → singlePassDecodeAux fuel cs = cs := by
  induction fuel with
  | zero => intro cs _; rfl
  | succ fuel ih =>
    intro cs hcs
    cases cs with
    | nil => rfl
    | cons c t =>
      have hc : c ≠ '&' := hcs c (List.mem_cons_self _ _)
      have hpre : ∀ pat : List Char, pat.head? = some '&' →
          pat.isPrefixOf (c :: t) = false := by
        intro pat hp
        rcases pat with _ | ⟨p0, pr⟩
        · simp at hp
        · simp only [List.head?_cons, Option.some.injEq] at hp
          subst hp
          simp [List.isPrefixOf, Ne.symm hc]
      rw [singlePassDecodeAux]
      rw [if_neg (by simp [hpre "&lt;".data rfl]), if_neg (by simp [hpre "&gt;".data rfl]),
        if_neg (by simp [hpre "&amp;".data rfl]), if_neg (by simp [hpre "&quot;".data rfl]),
        if_neg (by simp [hpre "&apos;".data rfl])]
      rw [ih t (fun x hx => hcs x (List.mem_cons_of_mem _ hx))]

theorem singlePassDecode_no_amp (v : String) (h : ∀ c ∈ v.data, c ≠ '&') :
    singlePassDecode v = v := by
  unfold singlePassDecode
  rw [singlePassDecodeAux_no_amp _ v.data h]

theorem singlePassDecode_alphanum (v : String) (h : ∀ c ∈ v.data, c.isAlphanum = true) :
    singlePassDecode v = v :=
  singlePassDecode_no_amp v (fun c hc => (alphanum_facts c (h c hc)).2.2.2.2.2.1)

/-- Reading one self-closing tag `<nm/>`: no element is opened. -/
theorem tokenizeAux_selfClosing (f : Nat) (nm rest : List Char) (st : List String)
    (hfu : rest.length < f) (hne : nm ≠ [])
    (hq : nm.head? ≠ some '?') (hsl : nm.head? ≠ some '/')
    (hgt : ∀ x ∈ nm, x ≠ '>') :
    tokenizeAux (f + 1) (('<' :: (nm ++ ['/'])) ++ '>' :: rest) st
      = .empty (parseTag nm).1 (parseTag nm).2 :: tokList rest st := by
  have hsh : ('<' :: (nm ++ ['/'])) ++ '>' :: rest
      = '<' :: ((nm ++ ['/']) ++ '>' :: rest) := by simp
  rw [hsh]
  simp only [tokenizeAux]
  rw [if_pos trivial]
  rw [head?_append_of_ne_nil (nm ++ ['/']) ('>' :: rest) (by simp)]
  rw [head?_append_of_ne_nil nm ['/'] hne]
  rw [if_neg hq, if_neg hsl]
  rw [takeWhile_append_stop (fun c => decide (c ≠ '>')) (nm ++ ['/']) '>' rest
    (fun x hx => by
      rcases List.mem_append.mp hx with h | h
      · simp [hgt x h]
      · rw [List.mem_singleton] at h; subst h; decide)
    (by decide)]
  rw [dropWhile_append_stop (fun c => decide (c ≠ '>')) (nm ++ ['/']) '>' rest
    (fun x hx => by
      rcases List.mem_append.mp hx with h | h
      · simp [hgt x h]
      · rw [List.mem_singleton] at h; subst h; decide)
    (by decide)]
  have hdrop : ('>' :: rest).drop 1 = rest := rfl
  rw [hdrop]
  rw [if_pos (List.getLast?_concat nm)]
  rw [List.dropLast_concat]
  rw [tokenizeAux_irrel f (rest.length + 1) rest st hfu (by omega)]
  rfl

theorem tokList_selfClosing (nm rest : List Char) (st : List String) (hne : nm ≠ [])
    (hq : nm.head? ≠ some '?') (hsl : nm.head? ≠ some '/')
    (hgt : ∀ x ∈ nm, x ≠ '>') :
    tokList (('<' :: (nm ++ ['/'])) ++ '>' :: rest) st
      = .empty (parseTag nm).1 (parseTag nm).2 :: tokList rest st := by
  unfold tokList
  exact tokenizeAux_selfClosing (('<' :: (nm ++ ['/'])) ++ '>' :: rest).length nm rest st
    (by simp [List.length_append]; omega) hne hq hsl hgt

theorem data_ne_nil (s : String) (h : s ≠ "") : s.data ≠ [] :=
  fun hc => h (String.ext hc)

theorem alphanum_head_facts (l : List Char) (hne : l ≠ [])
    (h : ∀ c ∈ l, c.isAlphanum = true) :
    l.head? ≠ some '?' ∧ l.head? ≠ some '/' := by
  cases l with
  | nil => exact absurd rfl hne
  | cons c t =>
    constructor
    · intro hc
      have hcq : c = '?' := by simpa using hc
      subst hcq
      exact absurd (h '?' (List.mem_cons_self _ _)) (by decide)
    · intro hc
      have hcs : c = '/' := by simpa using hc
      subst hcs
      exact absurd (h '/' (List.mem_cons_self _ _)) (by decide)

theorem alphanum_getLast_ne (l : List Char) (h : ∀ c ∈ l, c.isAlphanum = true) :
    l.getLast? ≠ some '/' := by
  intro hc
  exact (alphanum_facts '/' (h '/' (List.mem_of_mem_getLast? hc))).2.2.2.1 rfl

/-- Well-formedness of one serialised field: non-empty alphanumeric
name, alphanumeric (possibly empty) value. -/
def fieldWf (kv : String × String) : Prop :=
  (kv.1 ≠ "" ∧ ∀ c ∈ kv.1.data, c.isAlphanum = true) ∧
  ∀ c ∈ kv.2.data, c.isAlphanum = true

theorem tokList_fields (fields : List (String × String)) (rest : List Char)
    (st : List String) (hwf : ∀ kv ∈ fields, fieldWf kv)
    (hrest : rest.head? = some '<' ∨ rest = []) :
    tokList ((fieldsXmlStr fields).data ++ rest) st
      = fieldEvents fields ++ tokList rest st := by
  induction fields with
  | nil => simp [fieldsXmlStr, concatStrs, fieldEvents]
  | cons kv fs ih =>
    obtain ⟨⟨hk1, hk2⟩, hv⟩ := hwf kv (List.mem_cons_self _ _)
    have hkd : kv.1.data ≠ [] := data_ne_nil _ hk1
    have hhead := alphanum_head_facts kv.1.data hkd hk2
    have hXml : fieldsXmlStr (kv :: fs)
        = ("<" ++ kv.1 ++ ">" ++ kv.2 ++ "</" ++ kv.1 ++ ">") ++ fieldsXmlStr fs := rfl
    rw [hXml]
    have hsh : (("<" ++ kv.1 ++ ">" ++ kv.2 ++ "</" ++ kv.1 ++ ">") ++ fieldsXmlStr fs).data
        ++ rest
        = ('<' :: kv.1.data) ++ '>' ::
          (kv.2.data ++ (('<' :: '/' :: kv.1.data) ++ '>' ::
            ((fieldsXmlStr fs).data ++ rest))) := by
      simp [String.data_append, List.append_assoc]
    rw [hsh]
    rw [tokList_startTag kv.1.data _ st hkd hhead.1 hhead.2
      (fun x hx => (alphanum_facts x (hk2 x hx)).1) (alphanum_getLast_ne _ hk2)]
    rw [parseTag_no_ws kv.1.data
      (fun c hc => (alphanum_facts c (hk2 c hc)).2.2.2.2.2.2.2.2)]
    have hihrest := ih (fun x hx => hwf x (List.mem_cons_of_mem _ hx))
    by_cases hv0 : kv.2 = ""
    · rw [hv0]
      show XEvent.start ⟨kv.1.data⟩ [] :: tokList ([] ++ _) _ = _
      rw [List.nil_append]
      rw [tokList_closeTag kv.1.data _ st
        (fun x hx => (alphanum_facts x (hk2 x hx)).1)]
      rw [hihrest]
      simp [fieldEvents, hv0, strEta]
    · have hvd : kv.2.data ≠ [] := data_ne_nil _ hv0
      rw [tokList_textc kv.2.data _ _ hvd hv (Or.inl (by rfl))]
      rw [tokList_closeTag kv.1.data _ st
        (fun x hx => (alphanum_facts x (hk2 x hx)).1)]
      rw [hihrest]
      simp [fieldEvents, hv0, strEta]

theorem extract_inner_nil (root : String) (hne : root ≠ "")
    (hal : ∀ c ∈ root.data, c.isAlphanum = true) :
    extract_inner_xml (quickxml_se root []) = .ok "" := by
  have h1 : quickxml_se root [] = "<" ++ root ++ "/>" := by simp [quickxml_se]
  rw [h1]
  unfold extract_inner_xml tokenize
  have hsh : ("<" ++ root ++ "/>").data = ('<' :: (root.data ++ ['/'])) ++ '>' :: [] := by
    simp [String.data_append]
  rw [hsh]
  have hrd : root.data ≠ [] := data_ne_nil _ hne
  rw [tokList_selfClosing root.data [] [] hrd (alphanum_head_facts _ hrd hal).1
    (alphanum_head_facts _ hrd hal).2 (fun x hx => (alphanum_facts x (hal x hx)).1)]
  rfl

theorem fieldsXmlStr_ne_empty (fields : List (String × String)) (h : fields ≠ []) :
    fieldsXmlStr fields ≠ "" := by
  cases fields with
  | nil => exact absurd rfl h
  | cons kv fs =>
    apply str_ne_empty_of_data
    simp [fieldsXmlStr, concatStrs, String.data_append]

theorem str_lt_append_ne_empty (t : String) : "<" ++ t ≠ "" := by
  apply str_ne_empty_of_data
  rw [String.data_append]
  simp

theorem extractInner_start_true (n : String) (a : List (String × String))
    (rest : List XEvent) (content : String) :
    extractInnerLoop (.start n a :: rest) true content
      = extractInnerLoop rest true (content ++ "<" ++ n ++ ">") := by
  simp [extractInnerLoop]

theorem extractInner_text_true (s : String) (rest : List XEvent) (content : String) :
    extractInnerLoop (.text s :: rest) true content
      = extractInnerLoop rest true (content ++ singlePassDecode s) := by
  simp [extractInnerLoop]

theorem extractInner_close_true_ne (n : String) (rest : List XEvent) (content : String)
    (h : content ≠ "") :
    extractInnerLoop (.close n :: rest) true content
      = extractInnerLoop rest true (content ++ "</" ++ n ++ ">") := by
  simp [extractInnerLoop, h]

theorem extractInner_fieldEvents (fields : List (String × String)) (tail : List XEvent) :
    ∀ content : String, (∀ kv ∈ fields, ∀ c ∈ kv.2.data, c.isAlphanum = true) →
      extractInnerLoop (fieldEvents fields ++ tail) true content
        = extractInnerLoop tail true (content ++ fieldsXmlStr fields) := by
  induction fields with
  | nil =>
    intro content _
    simp [fieldEvents, fieldsXmlStr, concatStrs, String.append_empty]
  | cons kv fs ih =>
    intro content hv
    have hvk := hv kv (List.mem_cons_self _ _)
    have hfe : fieldEvents (kv :: fs)
        = (if kv.2 = "" then [XEvent.start kv.1 [], XEvent.close kv.1]
           else [XEvent.start kv.1 [], XEvent.text kv.2, XEvent.close kv.1])
          ++ fieldEvents fs := rfl
    rw [hfe]
    have hXml : fieldsXmlStr (kv :: fs)
        = ("<" ++ kv.1 ++ ">" ++ kv.2 ++ "</" ++ kv.1 ++ ">") ++ fieldsXmlStr fs := rfl
    by_cases hv0 : kv.2 = ""
    · rw [if_pos hv0]
      simp only [List.cons_append, List.nil_append]
      rw [extractInner_start_true]
      rw [extractInner_close_true_ne _ _ _
        (append_ne_empty_right _ ">" (by decide))]
      rw [ih _ (fun x hx => hv x (List.mem_cons_of_mem _ hx))]
      rw [hXml]
      congr 1
      rw [hv0]
      simp [String.append_assoc, String.append_empty]
    · rw [if_neg hv0]
      simp only [List.cons_append, List.nil_append]
      rw [extractInner_start_true, extractInner_text_true]
      rw [singlePassDecode_alphanum kv.2 hvk]
      rw [extractInner_close_true_ne _ _ _
        (append_ne_empty_right _ kv.2 hv0)]
      rw [ih _ (fun x hx => hv x (List.mem_cons_of_mem _ hx))]
      rw [hXml]
      congr 1
      simp [String.append_assoc]

theorem extract_inner_fields (root : String) (fields : List (String × String))
    (hne : root ≠ "") (hal : ∀ c ∈ root.data, c.isAlphanum = true)
    (hwf : ∀ kv ∈ fields, fieldWf kv) (hf : fields ≠ []) :
    extract_inner_xml (quickxml_se root fields)
      = .ok (fieldsXmlStr fields ++ ("</" ++ root ++ ">")) := by
  have h1 : quickxml_se root fields
      = ("<" ++ root ++ ">")
        ++ (concatStrs (fields.map renderFieldEl) ++ ("</" ++ root ++ ">")) := by
    unfold quickxml_se
    rw [if_neg hf, foldl_append_concatStrs]
    simp [String.empty_append, String.append_assoc]
  have h2 : concatStrs (fields.map renderFieldEl) = fieldsXmlStr fields := by
    unfold fieldsXmlStr
    congr 1
    apply List.map_congr_left
    intro kv hkv
    unfold renderFieldEl
    rw [xmlEscape_id kv.2 (hwf kv hkv).2]
  rw [h1, h2]
  unfold extract_inner_xml tokenize
  have hsh : (("<" ++ root ++ ">")
        ++ (fieldsXmlStr fields ++ ("</" ++ root ++ ">"))).data
      = ('<' :: root.data) ++ '>' ::
        ((fieldsXmlStr fields).data ++ (('<' :: '/' :: root.data) ++ '>' :: [])) := by
    simp [String.data_append, List.append_assoc]
  rw [hsh]
  have hrd : root.data ≠ [] := data_ne_nil _ hne
  rw [tokList_startTag root.data _ [] hrd (alphanum_head_facts _ hrd hal).1
    (alphanum_head_facts _ hrd hal).2 (fun x hx => (alphanum_facts x (hal x hx)).1)
    (alphanum_getLast_ne _ hal)]
  rw [parseTag_no_ws root.data
    (fun c hc => (alphanum_facts c (hal c hc)).2.2.2.2.2.2.2.2)]
  rw [tokList_fields fields _ _ hwf (Or.inl (by rfl))]
  rw [tokList_closeTag root.data [] [] (fun x hx => (alphanum_facts x (hal x hx)).1)]
  simp only [strEta]
  have hstep1 : extractInnerLoop
      (XEvent.start root []
        :: (fieldEvents fields ++ (XEvent.close root :: tokList [] [])))
      false ""
      = extractInnerLoop (fieldEvents fields ++ (XEvent.close root :: tokList [] []))
          true "" := by
    simp [extractInnerLoop]
  rw [hstep1]
  rw [extractInner_fieldEvents fields _ "" (fun kv hkv => (hwf kv hkv).2)]
  rw [String.empty_append]
  rw [extractInner_close_true_ne root _ _ (fieldsXmlStr_ne_empty fields hf)]
  rw [show tokList [] [] = ([] : List XEvent) from rfl]
  rw [show extractInnerLoop [] true (fieldsXmlStr fields ++ "</" ++ root ++ ">")
      = .ok (fieldsXmlStr fields ++ "</" ++ root ++ ">") from rfl]
  simp [String.append_assoc]

/-! ## Symbolic evaluation of the response envelope -/

theorem parseTag_envTag_fst (ns : String) :
    (parseTag (responseEnvTag ns)).1 = "soap:Envelope" := by
  unfold parseTag responseEnvTag
  have hsh : ("soap:Envelope xmlns:soap=\"http://schemas.xmlsoap.org/soap/envelope/\"\n               xmlns:tns=\"".data ++ ns.data ++ ['"'])
      = "soap:Envelope".data ++ ' ' ::
        ("xmlns:soap=\"http://schemas.xmlsoap.org/soap/envelope/\"\n               xmlns:tns=\"".data ++ (ns.data ++ ['"'])) := by
    show ("soap:Envelope".data ++ (' ' :: "xmlns:soap=\"http://schemas.xmlsoap.org/soap/envelope/\"\n               xmlns:tns=\"".data)) ++ ns.data ++ ['"'] = _
    simp
  rw [hsh]
  rw [takeWhile_append_stop (fun c => !isWs c) "soap:Envelope".data ' ' _
    (by decide) (by decide)]

theorem envTag_ne_nil (ns : String) : responseEnvTag ns ≠ [] := by
  unfold responseEnvTag
  simp

theorem envTag_head_q (ns : String) : (responseEnvTag ns).head? ≠ some '?' := by
  unfold responseEnvTag
  rw [head?_append_of_ne_nil _ _ (by simp), head?_append_of_ne_nil _ _ (by decide)]
  decide

theorem envTag_head_sl (ns : String) : (responseEnvTag ns).head? ≠ some '/' := by
  unfold responseEnvTag
  rw [head?_append_of_ne_nil _ _ (by simp), head?_append_of_ne_nil _ _ (by decide)]
  decide

theorem envTag_no_gt (ns : String) (hns : ∀ c ∈ ns.data, c ≠ '>') :
    ∀ x ∈ responseEnvTag ns, x ≠ '>' := by
  intro x hx
  unfold responseEnvTag at hx
  rw [List.append_assoc, List.mem_append, List.mem_append] at hx
  rcases hx with h | h | h
  · exact (by decide : ∀ x ∈ "soap:Envelope xmlns:soap=\"http://schemas.xmlsoap.org/soap/envelope/\"\n               xmlns:tns=\"".data, x ≠ '>') x h
  · exact hns x h
  · rw [List.mem_singleton] at h
    subst h
    decide

theorem envTag_getLast (ns : String) : (responseEnvTag ns).getLast? = some '"' := by
  unfold responseEnvTag
  rw [List.getLast?_append_of_ne_nil _ (by decide)]
  decide

theorem respOpTag_assoc (op : String) :
    respOpTag op = ("tns:".data ++ op.data) ++ "Response".data := rfl

theorem respOpTag_ne_nil (op : String) : respOpTag op ≠ [] := by
  rw [respOpTag_assoc]
  simp

theorem respOpTag_head_q (op : String) : (respOpTag op).head? ≠ some '?' := by
  rw [respOpTag_assoc, head?_append_of_ne_nil _ _ (by simp),
    head?_append_of_ne_nil _ _ (by decide)]
  decide

theorem respOpTag_head_sl (op : String) : (respOpTag op).head? ≠ some '/' := by
  rw [respOpTag_assoc, head?_append_of_ne_nil _ _ (by simp),
    head?_append_of_ne_nil _ _ (by decide)]
  decide

theorem respOpTag_no_gt (op : String) (hop : ∀ c ∈ op.data, c.isAlphanum = true) :
    ∀ x ∈ respOpTag op, x ≠ '>' := by
  intro x hx
  rw [respOpTag_assoc, List.mem_append, List.mem_append] at hx
  rcases hx with (h | h) | h
  · exact (by decide : ∀ x ∈ "tns:".data, x ≠ '>') x h
  · exact (alphanum_facts x (hop x h)).1
  · exact (by decide : ∀ x ∈ "Response".data, x ≠ '>') x h

theorem respOpTag_getLast (op : String) : (respOpTag op).getLast? = some 'e' := by
  rw [respOpTag_assoc, List.getLast?_append_of_ne_nil _ (by decide)]
  decide

theorem respOpTag_no_ws (op : String) (hop : ∀ c ∈ op.data, c.isAlphanum = true) :
    ∀ c ∈ respOpTag op, isWs c = false := by
  intro x hx
  rw [respOpTag_assoc, List.mem_append, List.mem_append] at hx
  rcases hx with (h | h) | h
  · exact (by decide : ∀ x ∈ "tns:".data, isWs x = false) x h
  · exact (alphanum_facts x (hop x h)).2.2.2.2.2.2.2.2
  · exact (by decide : ∀ x ∈ "Response".data, isWs x = false) x h

theorem respOpTagStr (op : String) :
    (⟨respOpTag op⟩ : String) = "tns:" ++ op ++ "Response" := by
  apply String.ext
  simp [respOpTag, String.data_append]

theorem respOpStr_data (op : String) :
    ("tns:" ++ op ++ "Response").data = respOpTag op := by
  simp [respOpTag, String.data_append]

theorem suffix_imp_getLast (l1 l2 : List Char) (h : l1.isSuffixOf l2 = true)
    (hne : l1 ≠ []) : l2.getLast? = l1.getLast? := by
  obtain ⟨t, ht⟩ := List.isSuffixOf_iff_suffix.mp h
  rw [← ht, List.getLast?_append_of_ne_nil _ hne]

theorem isBodyName_respOp (op : String) :
    isBodyName ("tns:" ++ op ++ "Response") = false := by
  unfold isBodyName
  rw [respOpStr_data]
  apply Bool.or_eq_false_iff.mpr
  constructor
  · cases h : (":Body".data).isSuffixOf (respOpTag op) with
    | false => rfl
    | true =>
      have := suffix_imp_getLast _ _ h (by decide)
      rw [respOpTag_getLast] at this
      exact absurd this (by decide)
  · apply decide_eq_false
    intro hc
    have : (respOpTag op).getLast? = some 'y' := by
      have hd : ("tns:" ++ op ++ "Response").data = "Body".data := by rw [hc]
      rw [respOpStr_data] at hd
      rw [hd]
      decide
    rw [respOpTag_getLast] at this
    exact absurd this (by decide)

set_option maxRecDepth 4000000 in
/-- The raw character stream of the response-envelope template around
the inner XML extracted from a non-empty field list, reassociated into
the lexical segments seen by the reader. -/
theorem respData_fields (root op ns : String) (fields : List (String × String)) :
    (respEnvelope (fieldsXmlStr fields ++ ("</" ++ root ++ ">")) op ns).data
      = "<?xml version=\"1.0\" encoding=\"UTF-8\"?>".data ++
        ("\n".data ++
         (('<' :: responseEnvTag ns) ++ '>' ::
          ("\n    ".data ++
           (('<' :: "soap:Body".data) ++ '>' ::
            ("\n        ".data ++
             (('<' :: respOpTag op) ++ '>' ::
              ("\n            ".data ++
               ((fieldsXmlStr fields).data ++
                (('<' :: '/' :: root.data) ++ '>' ::
                 ("\n        ".data ++
                  (('<' :: '/' :: respOpTag op) ++ '>' ::
                   ("\n    ".data ++
                    (('<' :: '/' :: "soap:Body".data) ++ '>' ::
                     ("\n".data ++
                      (('<' :: '/' :: "soap:Envelope".data) ++ '>' :: []))))))))))))))) := by
  simp [respEnvelope, responseEnvTag, respOpTag,
    String.data_append, List.append_assoc]

set_option maxRecDepth 4000000 in
/-- The raw character stream of the response-envelope template around
empty inner XML, reassociated into the lexical segments seen by the
reader. -/
theorem respData_nil (op ns : String) :
    (respEnvelope "" op ns).data
      = "<?xml version=\"1.0\" encoding=\"UTF-8\"?>".data ++
        ("\n".data ++
         (('<' :: responseEnvTag ns) ++ '>' ::
          ("\n    ".data ++
           (('<' :: "soap:Body".data) ++ '>' ::
            ("\n        ".data ++
             (('<' :: respOpTag op) ++ '>' ::
              ("\n            \n        ".data ++
               (('<' :: '/' :: respOpTag op) ++ '>' ::
                ("\n    ".data ++
                 (('<' :: '/' :: "soap:Body".data) ++ '>' ::
                  ("\n".data ++
                   (('<' :: '/' :: "soap:Envelope".data) ++ '>' :: [])))))))))))) := by
  simp [respEnvelope, responseEnvTag, respOpTag,
    String.data_append, List.append_assoc]

/-- `create_soap_response` on a non-empty field list succeeds (the
serialised value is well-formed XML), with the leaked stray root close
tag inside the built envelope. -/
theorem create_response_fields_ok (root op ns : String)
    (fields : List (String × String))
    (hroot : root ≠ "") (hral : ∀ c ∈ root.data, c.isAlphanum = true)
    (hwf : ∀ kv ∈ fields, fieldWf kv) (hf : fields ≠ []) :
    create_soap_response root fields op ns
      = .ok (respEnvelope (fieldsXmlStr fields ++ ("</" ++ root ++ ">")) op ns) := by
  unfold create_soap_response
  rw [extract_inner_fields root fields hroot hral hwf hf]

/-- `create_soap_response` on an empty field list succeeds with empty
inner XML. -/
theorem create_response_nil_ok (root op ns : String)
    (hroot : root ≠ "") (hral : ∀ c ∈ root.data, c.isAlphanum = true) :
    create_soap_response root [] op ns = .ok (respEnvelope "" op ns) := by
  unfold create_soap_response
  rw [extract_inner_nil root hroot hral]

theorem head?_cons_append (c : Char) (a b : List Char) :
    ((c :: a) ++ b).head? = some c := rfl

theorem fieldsXml_head (fields : List (String × String)) (hf : fields ≠ [])
    (r : List Char) : ((fieldsXmlStr fields).data ++ r).head? = some '<' := by
  cases fields with
  | nil => exact absurd rfl hf
  | cons kv fs =>
    simp [fieldsXmlStr, concatStrs, String.data_append, List.append_assoc]

theorem alphanum_ne_respOp (root op : String)
    (hral : ∀ c ∈ root.data, c.isAlphanum = true) :
    root ≠ ("tns:" ++ op ++ "Response") := by
  intro hc
  have hd := congrArg String.data hc
  rw [respOpStr_data] at hd
  have hmem : ':' ∈ respOpTag op := by
    rw [respOpTag_assoc]
    exact List.mem_append.mpr (Or.inl (List.mem_append.mpr (Or.inl (by decide))))
  rw [← hd] at hmem
  exact absurd (hral ':' hmem) (by decide)

/-- `tokList_closeTag` with the stack top given as an arbitrary string
known to equal the tag name. -/
theorem tokList_closeTagT (nm rest : List Char) (top : String) (st : List String)
    (hgt : ∀ x ∈ nm, x ≠ '>') (htop : top = (⟨nm⟩ : String)) :
    tokList (('<' :: '/' :: nm) ++ '>' :: rest) (top :: st)
      = .close ⟨nm⟩ :: tokList rest st := by
  subst htop
  exact tokList_closeTag nm rest st hgt

/-- The reader's event stream for a response envelope around a
non-empty field list: the stray root close tag mismatches the open
`tns:{op}Response` element, so the stream ends in the reader error. -/
theorem tokenize_response_fields (root op ns : String) (fields : List (String × String))
    (hral : ∀ c ∈ root.data, c.isAlphanum = true)
    (hop : ∀ c ∈ op.data, c.isAlphanum = true)
    (hns : ∀ c ∈ ns.data, c ≠ '>')
    (hwf : ∀ kv ∈ fields, fieldWf kv) (hf : fields ≠ []) :
    tokenize (respEnvelope (fieldsXmlStr fields ++ ("</" ++ root ++ ">")) op ns)
      = .decl
        :: .start "soap:Envelope" (parseTag (responseEnvTag ns)).2
        :: .start "soap:Body" []
        :: .start ("tns:" ++ op ++ "Response") []
        :: (fieldEvents fields
            ++ [.errEnd ("tns:" ++ op ++ "Response") root]) := by
  unfold tokenize
  rw [respData_fields root op ns fields]
  rw [tokList_decl]
  rw [tokList_ws "\n".data _ _ (by decide) (by decide)
    (Or.inl (head?_cons_append '<' _ _))]
  rw [tokList_startTag (responseEnvTag ns) _ _ (envTag_ne_nil ns) (envTag_head_q ns)
    (envTag_head_sl ns) (envTag_no_gt ns hns) (by rw [envTag_getLast]; decide)]
  rw [parseTag_envTag_fst]
  rw [tokList_ws "\n    ".data _ _ (by decide) (by decide)
    (Or.inl (head?_cons_append '<' _ _))]
  rw [tokList_startTag "soap:Body".data _ _ (by decide) (by decide) (by decide)
    (by decide) (by decide)]
  rw [show parseTag "soap:Body".data = ("soap:Body", ([] : List (String × String)))
    from rfl]
  rw [tokList_ws "\n        ".data _ _ (by decide) (by decide)
    (Or.inl (head?_cons_append '<' _ _))]
  rw [tokList_startTag (respOpTag op) _ _ (respOpTag_ne_nil op) (respOpTag_head_q op)
    (respOpTag_head_sl op) (respOpTag_no_gt op hop) (by rw [respOpTag_getLast]; decide)]
  rw [parseTag_no_ws (respOpTag op) (respOpTag_no_ws op hop)]
  rw [tokList_ws "\n            ".data _ _ (by decide) (by decide)
    (Or.inl (fieldsXml_head fields hf _))]
  rw [tokList_fields fields _ _ hwf (Or.inl (head?_cons_append '<' _ _))]
  rw [tokList_closeTag_mismatch root.data _ _ _
    (fun x hx => (alphanum_facts x (hral x hx)).1)
    (by
      show (⟨respOpTag op⟩ : String) ≠ (⟨root.data⟩ : String)
      rw [respOpTagStr, strEta]
      exact Ne.symm (alphanum_ne_respOp root op hral))]
  simp [respOpTagStr, strEta]

/-- The reader's event stream for a response envelope around an empty
field list: the document is balanced, so the stream is complete. -/
theorem tokenize_response_nil (op ns : String)
    (hop : ∀ c ∈ op.data, c.isAlphanum = true)
    (hns : ∀ c ∈ ns.data, c ≠ '>') :
    tokenize (respEnvelope "" op ns)
      = [.decl,
         .start "soap:Envelope" (parseTag (responseEnvTag ns)).2,
         .start "soap:Body" [],
         .start ("tns:" ++ op ++ "Response") [],
         .close ("tns:" ++ op ++ "Response"),
         .close "soap:Body", .close "soap:Envelope"] := by
  unfold tokenize
  rw [respData_nil op ns]
  rw [tokList_decl]
  rw [tokList_ws "\n".data _ _ (by decide) (by decide)
    (Or.inl (head?_cons_append '<' _ _))]
  rw [tokList_startTag (responseEnvTag ns) _ _ (envTag_ne_nil ns) (envTag_head_q ns)
    (envTag_head_sl ns) (envTag_no_gt ns hns) (by rw [envTag_getLast]; decide)]
  rw [parseTag_envTag_fst]
  rw [tokList_ws "\n    ".data _ _ (by decide) (by decide)
    (Or.inl (head?_cons_append '<' _ _))]
  rw [tokList_startTag "soap:Body".data _ _ (by decide) (by decide) (by decide)
    (by decide) (by decide)]
  rw [show parseTag "soap:Body".data = ("soap:Body", ([] : List (String × String)))
    from rfl]
  rw [tokList_ws "\n        ".data _ _ (by decide) (by decide)
    (Or.inl (head?_cons_append '<' _ _))]
  rw [tokList_startTag (respOpTag op) _ _ (respOpTag_ne_nil op) (respOpTag_head_q op)
    (respOpTag_head_sl op) (respOpTag_no_gt op hop) (by rw [respOpTag_getLast]; decide)]
  rw [parseTag_no_ws (respOpTag op) (respOpTag_no_ws op hop)]
  rw [tokList_ws "\n            \n        ".data _ _ (by decide) (by decide)
    (Or.inl (head?_cons_append '<' _ _))]
  rw [tokList_closeTagT (respOpTag op) _ _ _ (respOpTag_no_gt op hop) (by rfl)]
  rw [tokList_ws "\n    ".data _ _ (by decide) (by decide)
    (Or.inl (head?_cons_append '<' _ _))]
  rw [tokList_closeTagT "soap:Body".data _ _ _ (by decide) (by rfl)]
  rw [tokList_ws "\n".data _ _ (by decide) (by decide)
    (Or.inl (head?_cons_append '<' _ _))]
  rw [tokList_closeTagT "soap:Envelope".data [] _ _ (by decide) (by rfl)]
  rw [show tokList [] [] = ([] : List XEvent) from rfl]
  simp [respOpTagStr, strEta]

theorem capture_start (n : String) (a : List (String × String)) (rest : List XEvent)
    (d : Nat) (acc : String) :
    captureOperationSubtree (.start n a :: rest) d acc
      = captureOperationSubtree rest (d + 1) (acc ++ renderStartTag n a) := rfl

theorem capture_text (t : String) (rest : List XEvent) (d : Nat) (acc : String) :
    captureOperationSubtree (.text t :: rest) d acc
      = captureOperationSubtree rest d (acc ++ t) := rfl

theorem capture_close_ne (n : String) (rest : List XEvent) (d : Nat) (acc : String)
    (h : d ≠ 1) :
    captureOperationSubtree (.close n :: rest) d acc
      = captureOperationSubtree rest (d - 1) (acc ++ renderCloseTag n) := by
  simp [captureOperationSubtree, h]

theorem capture_close_one (n : String) (rest : List XEvent) (acc : String) :
    captureOperationSubtree (.close n :: rest) 1 acc
      = .ok (acc ++ renderCloseTag n, rest) := by
  simp [captureOperationSubtree]

theorem capture_err (exp fnd : String) (rest : List XEvent) (d : Nat) (acc : String) :
    captureOperationSubtree (.errEnd exp fnd :: rest) d acc
      = .error (endMismatchMsg exp fnd) := rfl

/-- The writer re-serialises the field events verbatim while the depth
counter stays above the operation level. -/
theorem capture_fields (fields : List (String × String)) (tail : List XEvent) :
    ∀ acc : String, captureOperationSubtree (fieldEvents fields ++ tail) 1 acc
      = captureOperationSubtree tail 1 (acc ++ fieldsXmlStr fields) := by
  induction fields with
  | nil =>
    intro acc
    simp [fieldEvents, fieldsXmlStr, concatStrs]
  | cons kv fs ih =>
    intro acc
    by_cases hv0 : kv.2 = ""
    · have hfe : fieldEvents (kv :: fs)
          = .start kv.1 [] :: .close kv.1 :: fieldEvents fs := by
        simp [fieldEvents, hv0]
      rw [hfe, List.cons_append, List.cons_append]
      rw [capture_start, capture_close_ne _ _ _ _ (by omega)]
      rw [show (1 + 1 - 1 : Nat) = 1 from rfl]
      rw [ih]
      congr 1
      simp [renderStartTag, renderCloseTag, renderAttrs, fieldsXmlStr, concatStrs,
        hv0, String.append_assoc]
      rw [show ("></" : String) = ">" ++ "</" from rfl, String.append_assoc]
    · have hfe : fieldEvents (kv :: fs)
          = .start kv.1 [] :: .text kv.2 :: .close kv.1 :: fieldEvents fs := by
        simp [fieldEvents, hv0]
      rw [hfe, List.cons_append, List.cons_append, List.cons_append]
      rw [capture_start, capture_text, capture_close_ne _ _ _ _ (by omega)]
      rw [show (1 + 1 - 1 : Nat) = 1 from rfl]
      rw [ih]
      congr 1
      simp [renderStartTag, renderCloseTag, renderAttrs, fieldsXmlStr, concatStrs,
        String.append_assoc]

theorem seek_decl (rest : List XEvent) (b : Bool) (d : Nat) :
    seekOperation (.decl :: rest) b d = seekOperation rest b d := rfl

theorem seek_start_notbody_out (n : String) (attrs : List (String × String))
    (rest : List XEvent) (d : Nat) (h : isBodyName n = false) :
    seekOperation (.start n attrs :: rest) false d = seekOperation rest false d := by
  simp [seekOperation, h]

theorem seek_start_body (n : String) (attrs : List (String × String))
    (rest : List XEvent) (b : Bool) (d : Nat) (h : isBodyName n = true) :
    seekOperation (.start n attrs :: rest) b d = seekOperation rest true 1 := by
  simp [seekOperation, h]

theorem seek_start_op_ok (n : String) (attrs : List (String × String))
    (rest : List XEvent) (cap : String × List XEvent) (h : isBodyName n = false)
    (hcap : captureOperationSubtree rest 1 (renderStartTag n attrs) = .ok cap) :
    seekOperation (.start n attrs :: rest) true 1
      = .ok (some (n,
          ((attrs.reverse.find? (fun kv => kv.1 = "xmlns")).map (fun kv => kv.2)),
          cap.1)) := by
  simp [seekOperation, h, hcap]

theorem seek_start_op_err (n : String) (attrs : List (String × String))
    (rest : List XEvent) (msg : String) (h : isBodyName n = false)
    (hcap : captureOperationSubtree rest 1 (renderStartTag n attrs) = .error msg) :
    seekOperation (.start n attrs :: rest) true 1 = .error msg := by
  simp [seekOperation, h, hcap]

theorem respOpStr_ne_empty (op : String) : ("tns:" ++ op ++ "Response") ≠ "" := by
  intro hc
  have hd := congrArg String.data hc
  rw [respOpStr_data] at hd
  exact respOpTag_ne_nil op hd

theorem respOpStr_ne_empty_assoc (op : String) :
    ¬("tns:" ++ (op ++ "Response")) = "" := by
  rw [← String.append_assoc]
  exact respOpStr_ne_empty op

/-- The library parser on a response envelope around a non-empty field
list: the reader's end-name check trips on the stray root close tag
leaked into the envelope, and the parser propagates the
`EndEventMismatch` error. -/
theorem parse_response_fields (root op ns : String) (fields : List (String × String))
    (hral : ∀ c ∈ root.data, c.isAlphanum = true)
    (hop : ∀ c ∈ op.data, c.isAlphanum = true)
    (hns : ∀ c ∈ ns.data, c ≠ '>')
    (hwf : ∀ kv ∈ fields, fieldWf kv) (hf : fields ≠ []) :
    parse_soap_request (respEnvelope (fieldsXmlStr fields ++ ("</" ++ root ++ ">")) op ns)
      = .error (endMismatchMsg ("tns:" ++ op ++ "Response") root) := by
  unfold parse_soap_request
  rw [tokenize_response_fields root op ns fields hral hop hns hwf hf]
  rw [seek_decl, seek_start_notbody_out _ _ _ _ (by decide),
    seek_start_body _ _ _ _ _ (by decide)]
  have hcap : captureOperationSubtree
      (fieldEvents fields ++ [.errEnd ("tns:" ++ op ++ "Response") root]) 1
      (renderStartTag ("tns:" ++ op ++ "Response") [])
      = .error (endMismatchMsg ("tns:" ++ op ++ "Response") root) := by
    rw [capture_fields fields _ _]
    rfl
  rw [seek_start_op_err _ _ _ _ (isBodyName_respOp op) hcap]

/-- The library parser on a response envelope around an empty field
list: the document is balanced, the operation keeps the `tns:` prefix
and the `Response` suffix, and the captured fragment is the operation
element with matching close tag. -/
theorem parse_response_nil (op ns : String)
    (hop : ∀ c ∈ op.data, c.isAlphanum = true)
    (hns : ∀ c ∈ ns.data, c ≠ '>') :
    parse_soap_request (respEnvelope "" op ns)
      = .ok ⟨"tns:" ++ op ++ "Response",
             "<" ++ ("tns:" ++ op ++ "Response") ++ ">"
               ++ ("</" ++ ("tns:" ++ op ++ "Response") ++ ">"), none⟩ := by
  unfold parse_soap_request
  rw [tokenize_response_nil op ns hop hns]
  rw [seek_decl, seek_start_notbody_out _ _ _ _ (by decide),
    seek_start_body _ _ _ _ _ (by decide),
    seek_start_op_ok _ _ _ _ (isBodyName_respOp op) (capture_close_one _ _ _)]
  simp [respOpStr_ne_empty op, respOpStr_ne_empty_assoc op, renderStartTag,
    renderCloseTag, renderAttrs, String.append_assoc]

/-- The reader's event stream for the captured fragment around an empty
field list. -/
theorem tokenize_frag_nil (op : String)
    (hop : ∀ c ∈ op.data, c.isAlphanum = true) :
    tokenize ("<" ++ ("tns:" ++ op ++ "Response") ++ ">"
        ++ ("</" ++ ("tns:" ++ op ++ "Response") ++ ">"))
      = [.start ("tns:" ++ op ++ "Response") [],
         .close ("tns:" ++ op ++ "Response")] := by
  unfold tokenize
  have hsh : ("<" ++ ("tns:" ++ op ++ "Response") ++ ">"
        ++ ("</" ++ ("tns:" ++ op ++ "Response") ++ ">")).data
      = ('<' :: respOpTag op) ++ '>' ::
          (('<' :: '/' :: respOpTag op) ++ '>' :: []) := by
    simp [respOpTag, String.data_append, List.append_assoc]
  rw [hsh]
  rw [tokList_startTag (respOpTag op) _ _ (respOpTag_ne_nil op) (respOpTag_head_q op)
    (respOpTag_head_sl op) (respOpTag_no_gt op hop) (by rw [respOpTag_getLast]; decide)]
  rw [parseTag_no_ws (respOpTag op) (respOpTag_no_ws op hop)]
  rw [tokList_closeTagT (respOpTag op) [] _ _ (respOpTag_no_gt op hop) (by rfl)]
  rw [show tokList [] [] = ([] : List XEvent) from rfl]
  simp [respOpTagStr, strEta]

/-- The deserialiser accepts the captured fragment of an empty field
list, producing the empty field list again. -/
theorem de_frag_nil (op : String)
    (hop : ∀ c ∈ op.data, c.isAlphanum = true) :
    quickxml_de ("<" ++ ("tns:" ++ op ++ "Response") ++ ">"
      ++ ("</" ++ ("tns:" ++ op ++ "Response") ++ ">")) = some [] := by
  unfold quickxml_de
  rw [tokenize_frag_nil op hop]
  show (if ("tns:" ++ op ++ "Response") = ("tns:" ++ op ++ "Response")
      then some (([] : List (String × String)).reverse) else none) = some []
  rw [if_pos rfl]
  rfl

/-- One-step reduction of `Except.bind` on a success value. -/
theorem exceptBind_ok {α β : Type} (x : α) (f : α → Except String β) :
    (Except.ok x : Except String α).bind f = f x := rfl

set_option maxHeartbeats 2000000 in
/-- C3 (counterexample): serialising the response value
`AddResponse { sum = 5 }` for operation `Add` and parsing the envelope
back does not round-trip: `extract_inner_xml` leaks the serialised
value's root close tag `</AddResponse>` into the envelope (its
root-close detection fires only while the accumulated content is still
empty), so the envelope is ill-formed inside `<tns:AddResponse>` and
the reader's end-name check makes the parser fail with the
`EndEventMismatch` error instead of returning the operation.  Even in
the error-free empty-value case the recovered operation name is the
qualified template name `tns:AddResponse`, not `Add`. -/
theorem roundtrip_counterexample_c3 :
    (create_soap_response "AddResponse" [("sum", "5")] "Add"
        "http://example.com/calc").bind parse_soap_request
      = .error "Expecting </tns:AddResponse> found </AddResponse>"
    ∧ (create_soap_response "AddResponse" [] "Add"
        "http://example.com/calc").bind parse_soap_request
      = .ok ⟨"tns:AddResponse", "<tns:AddResponse></tns:AddResponse>", none⟩
    ∧ ("tns:AddResponse" : String) ≠ "Add" := by
  refine ⟨by rfl, by rfl, by decide⟩

/-- C3: Corrected round-trip law.  For every response value (root name
and flat field list), operation name and namespace that are well formed
(alphanumeric names, non-empty root, namespace free of `>`), the
round trip through the codec fails: for a value with at least one
field, `extract_inner_xml` leaks the value's root close tag into the
built envelope, so parsing the envelope back stops with the reader's
`EndEventMismatch` error; for a value with no fields the envelope is
well formed and parsing succeeds, but the recovered operation name is
the qualified template name `tns:{op}Response` — a strict extension of
the original operation name — while the captured fragment does
deserialise back to the (empty) value. -/
theorem response_roundtrip_amended_c3 (root op ns : String)
    (fields : List (String × String))
    (hroot : root ≠ "") (hral : ∀ c ∈ root.data, c.isAlphanum = true)
    (hop : ∀ c ∈ op.data, c.isAlphanum = true)
    (hns : ∀ c ∈ ns.data, c ≠ '>')
    (hwf : ∀ kv ∈ fields, fieldWf kv) :
    (fields ≠ [] →
      (create_soap_response root fields op ns).bind parse_soap_request
        = .error (endMismatchMsg ("tns:" ++ op ++ "Response") root))
    ∧ ((create_soap_response root [] op ns).bind parse_soap_request
        = .ok ⟨"tns:" ++ op ++ "Response",
               "<" ++ ("tns:" ++ op ++ "Response") ++ ">"
                 ++ ("</" ++ ("tns:" ++ op ++ "Response") ++ ">"), none⟩)
    ∧ quickxml_de ("<" ++ ("tns:" ++ op ++ "Response") ++ ">"
        ++ ("</" ++ ("tns:" ++ op ++ "Response") ++ ">")) = some [] := by
  refine ⟨fun hf => ?_, ?_, de_frag_nil op hop⟩
  · rw [create_response_fields_ok root op ns fields hroot hral hwf hf, exceptBind_ok]
    exact parse_response_fields root op ns fields hral hop hns hwf hf
  · rw [create_response_nil_ok root op ns hroot hral, exceptBind_ok]
    exact parse_response_nil op ns hop hns

/-- C3 (witness): the amended statement applied to the response value
`AddResponse { sum = 5 }` (and its empty-value variant), operation
`Add` and a concrete namespace. -/
theorem response_roundtrip_amended_c3_witness :
    (create_soap_response "AddResponse" [("sum", "5")] "Add"
        "http://example.com/calc").bind parse_soap_request
      = .error (endMismatchMsg "tns:AddResponse" "AddResponse")
    ∧ (create_soap_response "AddResponse" [] "Add"
        "http://example.com/calc").bind parse_soap_request
      = .ok ⟨"tns:AddResponse", "<tns:AddResponse></tns:AddResponse>", none⟩ := by
  have h := response_roundtrip_amended_c3 "AddResponse" "Add" "http://example.com/calc"
    [("sum", "5")] (by decide) (by decide) (by decide) (by decide)
    (by
      intro kv hkv
      rw [List.mem_singleton] at hkv
      subst hkv
      exact ⟨⟨by decide, by decide⟩, by decide⟩)
  exact ⟨h.1 (by decide), h.2.1⟩

end SoapService
